import Mathlib

set_option maxRecDepth 100000

/-!
Verification of the NUMA topology / distance modelling engine of the
cri-resource-manager demo utilities.

The development embeds, as executable Lean definitions:
* `Topo2Q.dists` and `Topo2Q.qemuopts` from `demo/lib/topology2qemuopts.py`,
* `NumactlH.add_dists_to_numalist` from `demo/lib/numactlH2numajson.py`,
* `NumaJson.qemuopts` from `demo/lib/numajson2qemuopts.py`,
* `TopoPy.dump_to_topology` from `demo/lib/topology.py`.

Python dicts are embedded as insertion-ordered association lists,
Python exceptions as `Except String`, Python ints as `Int`/`Nat`.
-/

namespace PyDict

/-- Lookup in an insertion-ordered association list (Python dict read `d[k]`
or `k in d`): the first (and in dict-built lists, only) entry with the key. -/
def odLookup {κ : Type} [DecidableEq κ] {α : Type} : List (κ × α) → κ → Option α
  | [], _ => none
  | (k, v) :: rest, key => if k = key then some v else odLookup rest key

/-- Insertion-ordered association-list update (Python dict write `d[k] = v`):
replaces the value in place if the key exists, else appends at the end. -/
def odInsert {κ : Type} [DecidableEq κ] {α : Type} : List (κ × α) → κ → α → List (κ × α)
  | [], key, val => [(key, val)]
  | (k, v) :: rest, key, val =>
    if k = key then (key, val) :: rest else (k, v) :: odInsert rest key val

/-- Build a Python dict from a list of key-value pairs (a dict comprehension
or literal): later pairs overwrite earlier ones, insertion order kept. -/
def pyDictOf {κ : Type} [DecidableEq κ] {α : Type} (l : List (κ × α)) : List (κ × α) :=
  l.foldl (fun acc p => odInsert acc p.1 p.2) []

end PyDict

namespace PyStr

/-- Decimal value of a digit string (all characters are digits). -/
def digitsToNat (l : List Char) : Nat :=
  l.foldl (fun n c => n * 10 + (c.toNat - ('0').toNat)) 0

/-- Python `int(s)` on the strings reaching it here: an optional minus sign
followed by decimal digits (the source never feeds it whitespace or `+`). -/
def pyIntOfString? (s : String) : Option Int :=
  if s.data = [] then none
  else if s.data.head? = some '-' then
    if !(s.data.tail.isEmpty) && s.data.tail.all Char.isDigit
    then some (-(digitsToNat s.data.tail : Int)) else none
  else if s.data.all Char.isDigit then some ((digitsToNat s.data : Int)) else none

/-- `s1.lower().endswith("g")`. -/
def lastCharIsG (s : String) : Bool :=
  match s.data.getLast? with
  | some c => c == 'g' || c == 'G'
  | none => false

/-- `s[:-1]`. -/
def dropLastStr (s : String) : String := String.mk s.data.dropLast

/-- `siadd` of topology2qemuopts.py / numajson2qemuopts.py:
`str(int(s1[:-1]) + int(s2[:-1])) + "G"` behind the gigabyte-suffix guard. -/
def siadd (s1 s2 : String) : Except String String :=
  if lastCharIsG s1 && lastCharIsG s2 then
    match pyIntOfString? (dropLastStr s1), pyIntOfString? (dropLastStr s2) with
    | some a, some b => .ok (toString (a + b) ++ "G")
    | _, _ => .error "invalid literal for int() with base 10"
  else .error "supports only sizes in gigabytes, example: 2G"

/-- `sisub` of topology2qemuopts.py. -/
def sisub (s1 s2 : String) : Except String String :=
  if lastCharIsG s1 && lastCharIsG s2 then
    match pyIntOfString? (dropLastStr s1), pyIntOfString? (dropLastStr s2) with
    | some a, some b => .ok (toString (a - b) ++ "G")
    | _, _ => .error "invalid literal for int() with base 10"
  else .error "supports only sizes in gigabytes, example: 2G"

/-- `pat in s` for strings (substring containment). -/
def strContains (s pat : String) : Bool :=
  (List.range (s.data.length + 1)).any fun i => pat.data.isPrefixOf (s.data.drop i)

/-- A size string that `siadd`/`sisub` accept: gigabyte suffix and an
integer prefix. -/
def gform (s : String) : Prop :=
  lastCharIsG s = true ∧ (pyIntOfString? (dropLastStr s)).isSome = true

end PyStr

open PyDict PyStr

namespace Topo2Q

/-! ## demo/lib/topology2qemuopts.py -/

/-- Module constant `DEFAULT_DIST`. -/
def DEFAULT_DIST : Int := 21

/-- Module constant `DEFAULT_DIST_SAME_PACKAGE`. -/
def DEFAULT_DIST_SAME_PACKAGE : Int := 21

/-- Module constant `DEFAULT_DIST_SAME_DIE`. -/
def DEFAULT_DIST_SAME_DIE : Int := 11

/-- Module constant `DEFAULT_DIST_SAME_NODE`. -/
def DEFAULT_DIST_SAME_NODE : Int := 10

/-- One NUMA group spec of `topology2qemuopts.py`: a JSON object whose
recognized keys are the fields below; an absent key is `none` / the
documented default.  The field `dist` stands for a "dist" key in the dict:
`validate` rejects it as an unknown key, while `dists` reads it into a dead
local variable.  `distOtherPackage` stands for the accepted key
"dist-other-package" that no code of the module ever reads. -/
structure TSpec where
  nodes : Nat := 1
  cores : Nat := 0
  threads : Option Nat := none
  dies : Nat := 1
  packages : Nat := 1
  mem : Option String := none
  nvmem : Option String := none
  dimm : Option String := none
  dist : Option Int := none
  distSameDie : Option Int := none
  distSamePackage : Option Int := none
  distOtherPackage : Option Int := none
  distAll : Option (List (List Int)) := none
  nodeDist : Option (List (Int × Int)) := none
  deriving DecidableEq, Repr

/-- `validate(numalist)` of topology2qemuopts.py as a predicate: key/range
validation.  Structural key validity is carried by the `TSpec` type itself;
a present `dist` field stands for the unknown key "dist", which `validate`
rejects.  A "mem"/"nvmem" value is accepted when it is `"0"` or `siadd`
accepts it; `threads`/`nodes`/`dies`/`packages` must be positive; `threads`
with zero cores is rejected.  (Error message strings are elided: the source
raises `ValueError` with the offending spec interpolated.) -/
def validateSpec (spec : TSpec) : Bool :=
  (match spec.mem with
    | none => true
    | some v => v == "0" || (siadd v "0G").isOk) &&
  (match spec.nvmem with
    | none => true
    | some v => v == "0" || (siadd v "0G").isOk) &&
  (match spec.threads with
    | none => true
    | some t => decide (0 < t)) &&
  decide (0 < spec.nodes) && decide (0 < spec.dies) && decide (0 < spec.packages) &&
  spec.dist.isNone &&
  !(spec.threads.isSome && spec.cores == 0)

/-- `validate` over the whole group list. -/
def validate (numalist : List TSpec) : Bool :=
  numalist.all validateSpec

/-- The `{sourcenode: {destnode: dist}}` dict built by `dists`. -/
abbrev DD := List (Nat × List (Nat × Int))

/-- Read a cell of the distance dict. -/
def ddLookup (dd : DD) (s d : Nat) : Option Int :=
  (odLookup dd s).bind fun row => odLookup row d

/-- `dist_dict[s][d] = v`.  (In the source the row for `s` always exists when
this assignment runs; a missing row would be a Python `KeyError`.) -/
def ddSet (dd : DD) (s d : Nat) (v : Int) : DD :=
  odInsert dd s (odInsert ((odLookup dd s).getD []) d v)

/-- State of the first loop of `dists` over the group list.
`n` is the number of nodes created so far (the source's `sourcenode + 1`). -/
structure ScanState where
  n : Nat := 0
  lastsocket : Int := -1
  dist_dict : DD := []
  npd : List (Nat × (Int × Nat)) := []   -- node_package_die {node: (package, die)}
  dsd : Int := DEFAULT_DIST_SAME_DIE     -- dist_same_die
  dsp : Int := DEFAULT_DIST_SAME_PACKAGE -- dist_same_package
  dop : Int := DEFAULT_DIST              -- dist_other_package; never updated by the source
  dm : Option (List (List Int)) := none  -- dist_matrix
  nnd : List (Nat × List (Int × Int)) := [] -- node_node_dist
  lnig : Int := -1                       -- lastnode_in_group
  deriving Repr

/-- Innermost body of the node-creation loops: `sourcenode += 1;
dist_dict[sourcenode] = {}; node_package_die[sourcenode] = (lastsocket, die)`. -/
def nodeStep (die : Nat) (st : ScanState) : ScanState :=
  { st with
    n := st.n + 1
    dist_dict := odInsert st.dist_dict st.n []
    npd := odInsert st.npd st.n (st.lastsocket, die) }

/-- The `for package in range(packagecount): ...` nest of the first loop. -/
def addGroupNodes (spec : TSpec) (st : ScanState) : ScanState :=
  (List.range spec.packages).foldl
    (fun st _package =>
      let st := if spec.nodes > 0 then { st with lastsocket := st.lastsocket + 1 } else st
      (List.range spec.dies).foldl
        (fun st die =>
          (List.range spec.nodes).foldl (fun st _node => nodeStep die st) st)
        st)
    st

/-- One iteration of the first loop of `dists` over `numalist`.
The source's `if "dist" in numaspec: dist = numaspec["dist"]` assigns a local
variable that is never read afterwards (dead store); nothing to model. -/
def scanGroup (st : ScanState) (spec : TSpec) : ScanState :=
  let first := st.n                     -- first_node_in_group = sourcenode + 1
  let st1 := addGroupNodes spec st
  let last := st1.n                     -- lastnode_in_group = sourcenode + 1
  { st1 with
    dsd := spec.distSameDie.getD st1.dsd
    dsp := spec.distSamePackage.getD st1.dsp
    dm := match spec.distAll with
      | some m => some m
      | none => st1.dm
    nnd := match spec.nodeDist with
      | some nd => (List.range (last - first)).foldl
          (fun acc i => odInsert acc (first + i) (pyDictOf nd)) st1.nnd
      | none => st1.nnd
    lnig := (last : Int) }

/-- The whole first loop of `dists`. -/
def scan (numalist : List TSpec) : ScanState :=
  numalist.foldl scanGroup {}

/-- Total number of node ids resolved by `dists` for a group list. -/
def totalN (numalist : List TSpec) : Nat := (scan numalist).n

/-- `for destnode, source_dest_dist in enumerate(row)` with the running
destination index `k`: `dist_dict[sourcenode][destnode] = source_dest_dist`. -/
def fillRowFrom (s : Nat) : DD → Nat → List Int → DD
  | dd, _, [] => dd
  | dd, k, v :: rest => fillRowFrom s (ddSet dd s k v) (k + 1) rest

/-- `dist_dict[sourcenode][destnode] = source_dest_dist` for one `dist-all` row. -/
def fillRow (dd : DD) (s : Nat) (row : List Int) : DD :=
  fillRowFrom s dd 0 row

/-- The `for sourcenode, row in enumerate(dist_matrix)` loop with its
per-row dimension check. -/
def fillRowsAux (lastnode : Int) : DD → Nat → List (List Int) → Except String DD
  | dd, _, [] => .ok dd
  | dd, s, row :: rest =>
    if (row.length : Int) ≠ lastnode + 1 then
      .error ("wrong dimensions in dist-all on row " ++ toString (s + 1) ++ ": "
        ++ toString row.length ++ " distances seen, " ++ toString (lastnode + 1)
        ++ " expected")
    else fillRowsAux lastnode (fillRow dd s row) (s + 1) rest

/-- The `dist_matrix is not None` branch of `dists`. -/
def fillFromMatrix (dd : DD) (dmx : List (List Int)) (lastnode : Int) : Except String DD :=
  if (dmx.length : Int) ≠ lastnode + 1 then
    .error ("wrong dimensions in dist-all " ++ toString dmx.length ++ " rows seen, "
      ++ toString lastnode ++ " expected")
  else fillRowsAux lastnode dd 0 dmx

/-- `sourcenode in node_node_dist and destnode in node_node_dist[sourcenode]`,
returning the stored distance. -/
def nndLookup (nnd : List (Nat × List (Int × Int))) (s : Nat) (d : Int) : Option Int :=
  (odLookup nnd s).bind fun inner => odLookup inner d

/-- The topology-based default distance (the trailing `else` chain of the
fill loop).  In the source both nodes are always present in
`node_package_die`; a missing node would be a Python `KeyError`. -/
def topoDefault (npd : List (Nat × (Int × Nat))) (dsd dsp dop : Int) (s d : Nat) : Int :=
  if odLookup npd s = odLookup npd d then dsd
  else if ((odLookup npd s).getD (0, 0)).1 = ((odLookup npd d).getD (0, 0)).1 then dsp
  else dop

/-- Body of the `for sourcenode ... for destnode ...` fill loop of `dists`
(the `dist_matrix is None` branch). -/
def fillStep (nnd : List (Nat × List (Int × Int))) (npd : List (Nat × (Int × Nat)))
    (dsd dsp dop : Int) (dd : DD) (p : Nat × Nat) : DD :=
  if p.1 = p.2 then ddSet dd p.1 p.2 DEFAULT_DIST_SAME_NODE
  else match nndLookup nnd p.1 (p.2 : Int) with
    | some v => ddSet (ddSet dd p.1 p.2 v) p.2 p.1 v
    | none =>
      if (ddLookup dd p.1 p.2).isSome then dd
      else ddSet dd p.1 p.2 (topoDefault npd dsd dsp dop p.1 p.2)

/-- The ordered pairs visited by the two nested `range(lastnode + 1)` loops. -/
def allPairs (n : Nat) : List (Nat × Nat) :=
  (List.range n).flatMap fun s => (List.range n).map fun d => (s, d)

/-- The `dist_matrix is None` branch of `dists`: nested source/dest loops. -/
def fillPairs (st : ScanState) (n : Nat) : DD :=
  (allPairs n).foldl (fillStep st.nnd st.npd st.dsd st.dsp st.dop) st.dist_dict

/-- `dists(numalist)` of topology2qemuopts.py: resolve a group list into the
full `{sourcenode: {destnode: dist}}` dict.  The source's
`lastnode = lastnode_in_group - 1` appears here as `(scan numalist).lnig - 1`. -/
def dists (numalist : List TSpec) : Except String DD :=
  if (scan numalist).lnig < 0 then .error "no NUMA nodes found"
  else match (scan numalist).dm with
    | some dmx => fillFromMatrix (scan numalist).dist_dict dmx ((scan numalist).lnig - 1)
    | none => .ok (fillPairs (scan numalist) (((scan numalist).lnig - 1) + 1).toNat)

/-- Invariant of the fill loop of `dists` (the `dist_matrix is None` branch),
after the iterations in `pre` have run: processed cells are set, a symmetric
`node-dist` write has set both cells, diagonal cells only ever hold 10, and a
pair covered by `node-dist` either already has symmetric cells or its covering
iteration is still pending. -/
def cellsInv (nnd : List (Nat × List (Int × Int))) (dd : DD)
    (pre : List (Nat × Nat)) : Prop :=
  (∀ p ∈ pre, (ddLookup dd p.1 p.2).isSome = true) ∧
  (∀ p ∈ pre, (nndLookup nnd p.1 (p.2 : Int)).isSome = true →
      (ddLookup dd p.2 p.1).isSome = true) ∧
  (∀ i, ddLookup dd i i = none ∨ ddLookup dd i i = some 10) ∧
  (∀ a b, a ≠ b →
    ((nndLookup nnd a (b : Int)).isSome = true ∨
      (nndLookup nnd b (a : Int)).isSome = true) →
    ddLookup dd a b = ddLookup dd b a ∨
    ((a, b) ∉ pre ∧ (nndLookup nnd a (b : Int)).isSome = true) ∨
    ((b, a) ∉ pre ∧ (nndLookup nnd b (a : Int)).isSome = true))

/-- States of the two scans (original spec vs. spec with one out-of-range
node-dist entry removed) agree everywhere except that node-dist rows may
differ at the removed key. -/
abbrev ScanRel (k : Int) (st1 st2 : ScanState) : Prop :=
  st1.n = st2.n ∧ st1.lastsocket = st2.lastsocket ∧ st1.dist_dict = st2.dist_dict ∧
  st1.npd = st2.npd ∧ st1.dsd = st2.dsd ∧ st1.dsp = st2.dsp ∧ st1.dop = st2.dop ∧
  st1.dm = st2.dm ∧ st1.lnig = st2.lnig ∧
  (∀ (s : Nat) (d : Int), d ≠ k → nndLookup st1.nnd s d = nndLookup st2.nnd s d)

end Topo2Q

namespace NumaJson

/-! ## demo/lib/numajson2qemuopts.py -/

/-- One NUMA group spec of numajson2qemuopts.py.  The four distance maps
stand for the key families `dist-to-node-X`, `dist-node-X`,
`dist-to-group-X`, `dist-group-X` (X is the parsed integer suffix). -/
structure JSpec where
  cpu : Nat := 0
  mem : Option String := none
  nvmem : Option String := none
  nodes : Nat := 1
  dist : Option Int := none
  distToNode : List (Int × Int) := []
  distNode : List (Int × Int) := []
  distToGroup : List (Nat × Int) := []
  distGroup : List (Nat × Int) := []
  deriving DecidableEq, Repr

/-- State of the first loop of `qemuopts` (cpu counts, mem and nvmem sizes). -/
structure JState where
  machineparam : String := "-machine pc"
  numaparams : List String := []
  objectparams : List String := []
  lastnode : Int := -1
  lastcpu : Int := -1
  lastmem : Int := -1
  lastnvmem : Int := -1
  totalmem : String := "0G"
  totalnvmem : String := "0G"
  groupnodes : List (Nat × List Int) := []
  deriving Repr

/-- Python `range(a, b)` over ints. -/
def intRange (a b : Int) : List Int :=
  (List.range (b - a).toNat).map (fun i => a + (i : Int))

/-- `numaparams[-1] = f(numaparams[-1])`; an empty list is an `IndexError`. -/
def modifyLast (l : List String) (f : String → String) : Except String (List String) :=
  match l.getLast? with
  | none => .error "list index out of range"
  | some x => .ok (l.dropLast ++ [f x])

/-- One group of the first loop of `qemuopts`. -/
def jGroupStep (st : JState) (gi : Nat) (spec : JSpec) : Except String JState := do
  let nodecount := spec.nodes
  let gnodes := intRange (st.lastnode + 1) (st.lastnode + 1 + nodecount)
  let st := { st with groupnodes := odInsert st.groupnodes gi gnodes }
  let cpucount := spec.cpu
  let memsize := spec.mem.getD "0"
  let memcount : Nat := if memsize ≠ "0" then 1 else 0
  let nvmemsize := spec.nvmem.getD "0"
  let nvmemcount : Nat := if nvmemsize ≠ "0" then 1 else 0
  (List.range nodecount).foldlM (fun (st : JState) _node => do
    let st := { st with lastnode := st.lastnode + 1 }
    let st ← (List.range memcount).foldlM (fun (st : JState) _ => do
      let lastmem := st.lastmem + 1
      let tm ← siadd st.totalmem memsize
      pure { st with
        lastmem := lastmem
        objectparams := st.objectparams ++ ["-object memory-backend-ram,size=" ++ memsize
          ++ ",id=mem" ++ toString lastmem]
        numaparams := st.numaparams ++ ["-numa node,nodeid=" ++ toString st.lastnode
          ++ ",memdev=mem" ++ toString lastmem]
        totalmem := tm }) st
    let st ← (List.range nvmemcount).foldlM (fun (st : JState) _ => do
      let lastnvmem := st.lastnvmem + 1
      let machineparam := if lastnvmem == 0 then st.machineparam ++ ",nvdimm=on"
        else st.machineparam
      let tnv ← siadd st.totalnvmem nvmemsize
      pure { st with
        lastnvmem := lastnvmem
        machineparam := machineparam
        objectparams := st.objectparams ++ ["-object memory-backend-ram,size=" ++ nvmemsize
          ++ ",id=nvmem" ++ toString lastnvmem]
        numaparams := st.numaparams ++ ["-numa node,nodeid=" ++ toString st.lastnode
          ++ ",memdev=nvmem" ++ toString lastnvmem]
        totalnvmem := tnv }) st
    if cpucount > 0 then do
      let np ← modifyLast st.numaparams (fun last => last ++ ",cpus="
        ++ toString (st.lastcpu + 1) ++ "-" ++ toString (st.lastcpu + (cpucount : Int)))
      pure { st with numaparams := np, lastcpu := st.lastcpu + (cpucount : Int) }
    else pure st) st

/-- `destnode in found_dests[sourcenode]` (keys always exist in the source). -/
def fdMem (fd : List (Int × List Int)) (s d : Int) : Bool :=
  ((odLookup fd s).getD []).contains d

/-- `found_dests[sourcenode].add(destnode)` (only ever called when absent). -/
def fdAdd (fd : List (Int × List Int)) (s d : Int) : List (Int × List Int) :=
  odInsert fd s (((odLookup fd s).getD []) ++ [d])

/-- `"-numa dist,src=%s,dst=%s,val=%s"`. -/
def distDirective (s d v : Int) : String :=
  "-numa dist,src=" ++ toString s ++ ",dst=" ++ toString d ++ ",val=" ++ toString v

/-- State threaded through the three distance phases. -/
structure DPhase where
  params : List String
  fd : List (Int × List Int)
  sourcenode : Int
  deriving Repr

/-- Body of the first distance phase for one source node: `dist-to-node`
and `dist-node` overrides. -/
def phase1Node (spec : JSpec) (lastnode : Int) (dp : DPhase) : DPhase :=
  let s := dp.sourcenode + 1
  let fd := if !(fdMem dp.fd s s) then fdAdd dp.fd s s else dp.fd
  let pf := (intRange 0 (lastnode + 1)).foldl (fun (pf : List String × List (Int × List Int)) d =>
    let pf := match odLookup spec.distToNode d with
      | some v =>
        if !(fdMem pf.2 s d) then (pf.1 ++ [distDirective s d v], fdAdd pf.2 s d) else pf
      | none => pf
    match odLookup spec.distNode d with
    | some v =>
      let pf := if !(fdMem pf.2 s d) then (pf.1 ++ [distDirective s d v], fdAdd pf.2 s d) else pf
      if !(fdMem pf.2 d s) then (pf.1 ++ [distDirective d s v], fdAdd pf.2 d s) else pf
    | none => pf) (dp.params, fd)
  { params := pf.1, fd := pf.2, sourcenode := s }

/-- First distance phase over the whole group list. -/
def phase1 (numalist : List JSpec) (lastnode : Int) (dp : DPhase) : DPhase :=
  numalist.foldl (fun dp spec =>
    (List.range spec.nodes).foldl (fun dp _ => phase1Node spec lastnode dp) dp) dp

/-- Body of the second distance phase for one source node: `dist-to-group`
and `dist-group` overrides. -/
def phase2Node (spec : JSpec) (groupcount : Nat) (groupnodes : List (Nat × List Int))
    (dp : DPhase) : DPhase :=
  let s := dp.sourcenode + 1
  let pf := (List.range groupcount).foldl (fun (pf : List String × List (Int × List Int)) destgroup =>
    let gnodes := (odLookup groupnodes destgroup).getD []
    let pf := match odLookup spec.distToGroup destgroup with
      | some v => gnodes.foldl (fun pf d =>
          if !(fdMem pf.2 s d) then (pf.1 ++ [distDirective s d v], fdAdd pf.2 s d) else pf) pf
      | none => pf
    match odLookup spec.distGroup destgroup with
    | some v => gnodes.foldl (fun pf d =>
        let pf := if !(fdMem pf.2 s d) then (pf.1 ++ [distDirective s d v], fdAdd pf.2 s d) else pf
        if !(fdMem pf.2 d s) then (pf.1 ++ [distDirective d s v], fdAdd pf.2 d s) else pf) pf
    | none => pf) (dp.params, dp.fd)
  { params := pf.1, fd := pf.2, sourcenode := s }

/-- Second distance phase over the whole group list. -/
def phase2 (numalist : List JSpec) (groupnodes : List (Nat × List Int)) (dp : DPhase) : DPhase :=
  numalist.foldl (fun dp spec =>
    (List.range spec.nodes).foldl
      (fun dp _ => phase2Node spec numalist.length groupnodes dp) dp) dp

/-- Third distance phase: every group's scalar `dist` default fills every
pair still missing from `found_dests` — without recording it, so every
defaulting group emits directives for every still-unresolved pair. -/
def phase3 (numalist : List JSpec) (lastnode : Int) (dp : DPhase) : DPhase :=
  numalist.foldl (fun dp spec =>
    match spec.dist with
    | none => dp
    | some v =>
      let params := (intRange 0 (lastnode + 1)).foldl (fun params s =>
        (intRange 0 (lastnode + 1)).foldl (fun params d =>
          let params := if !(fdMem dp.fd s d) then params ++ [distDirective s d v] else params
          if !(fdMem dp.fd d s) then params ++ [distDirective d s v] else params) params) dp.params
      { dp with params := params }) dp

/-- The observable pieces of the rendered parameter list. -/
structure JParts where
  machineparam : String
  cpuparam : String
  memparam : String
  numaparams : List String
  objectparams : List String
  totalmem : String
  totalnvmem : String
  lastcpu : Int
  lastnode : Int
  deriving DecidableEq, Repr

/-- `qemuopts(numalist)` of numajson2qemuopts.py up to final string
rendering: the parameter lists and totals it assembles.  `validate` only
checks key names and integer key suffixes, which the `JSpec` type carries
structurally, so it can never fail on a `List JSpec`. -/
def qemuoptsParts (numalist : List JSpec) : Except String JParts := do
  let st ← numalist.enum.foldlM (fun (st : JState) p => jGroupStep st p.1 p.2) {}
  let fd0 := (intRange 0 (st.lastnode + 1)).foldl
    (fun acc s => odInsert acc s ([] : List Int)) []
  let dp := phase1 numalist st.lastnode { params := st.numaparams, fd := fd0, sourcenode := -1 }
  let dp := phase2 numalist st.groupnodes { dp with sourcenode := -1 }
  let dp := phase3 numalist st.lastnode dp
  let mm ← siadd st.totalmem st.totalnvmem
  pure { machineparam := st.machineparam
         cpuparam := "-smp " ++ toString (st.lastcpu + 1)
         memparam := "-m " ++ mm
         numaparams := dp.params
         objectparams := st.objectparams
         totalmem := st.totalmem
         totalnvmem := st.totalnvmem
         lastcpu := st.lastcpu
         lastnode := st.lastnode }

/-- `qemuopts(numalist)`: the rendered parameter string. -/
def qemuopts (numalist : List JSpec) : Except String String :=
  (qemuoptsParts numalist).map fun p =>
    p.machineparam ++ " " ++ p.cpuparam ++ " " ++ p.memparam ++ " "
      ++ String.intercalate " " p.numaparams ++ " " ++ String.intercalate " " p.objectparams

/-- A `-numa node,...` token. -/
def isNumaNodeParam (s : String) : Bool := ("-numa node").data.isPrefixOf s.data

/-- A `-numa dist,...` distance directive. -/
def isDistParam (s : String) : Bool := ("-numa dist").data.isPrefixOf s.data

end NumaJson

namespace Topo2Q

/-! ### `qemuopts` of topology2qemuopts.py -/

/-- State of the main loop of `qemuopts` (topology2qemuopts.py).
`groupnodes` is assigned but never read by the source; it is kept for
faithfulness.  `threads_set_node` (kept only for an error message) is
elided. -/
structure QState where
  machineparam : String := "-machine pc"
  numaparams : List String := []
  objectparams : List String := []
  deviceparams : List String := []
  lastnode : Int := -1
  lastcpu : Int := -1
  lastdie : Int := -1
  lastsocket : Int := -1
  lastmem : Int := -1
  lastnvmem : Int := -1
  totalmem : String := "0G"
  totalnvmem : String := "0G"
  unpluggedmem : String := "0G"
  pluggedmem : String := "0G"
  memslots : Nat := 0
  groupnodes : List (Nat × List Int) := []
  threadcount : Int := -1
  deriving Repr

/-- `s.startswith("0")`. -/
def startsWithZero (s : String) : Bool := s.data.head? == some '0'

/-- Insert into a sorted list (ascending). -/
def insSorted (x : Nat) : List Nat → List Nat
  | [] => [x]
  | y :: r => if x ≤ y then x :: y :: r else y :: insSorted x r

/-- `sorted(...)` for the key lists of the distance dict. -/
def isortNat (l : List Nat) : List Nat := l.foldr insSorted []

/-- The `for mem in range(memcount)` body: one memory region of a node.
The dimm error message elides Python `%r` quoting details. -/
def qMemStep (memsize memdimm : String) (st : QState) (cur : List String) :
    Except String (QState × List String) := do
  let lastmem := st.lastmem + 1
  let builtinObj := "-object memory-backend-ram,size=" ++ memsize
    ++ ",id=membuiltin_" ++ toString lastmem ++ "_node_" ++ toString st.lastnode
  let builtinNuma := "-numa node,nodeid=" ++ toString st.lastnode
    ++ ",memdev=membuiltin_" ++ toString lastmem ++ "_node_" ++ toString st.lastnode
  let dimmObj := "-object memory-backend-ram,size=" ++ memsize
    ++ ",id=memdimm_" ++ toString lastmem ++ "_node_" ++ toString st.lastnode
  let plainNuma := "-numa node,nodeid=" ++ toString st.lastnode
  let dimmDev := "-device pc-dimm,node=" ++ toString st.lastnode ++ ",id=dimm"
    ++ toString lastmem ++ ",memdev=memdimm_" ++ toString lastmem
    ++ "_node_" ++ toString st.lastnode
  if memdimm = "" then
    let tm ← siadd st.totalmem memsize
    let obj := st.objectparams ++ [builtinObj]
    let st2 := { st with lastmem := lastmem, totalmem := tm, objectparams := obj }
    pure (st2, cur ++ [builtinNuma])
  else if memdimm = "plugged" then
    let pm ← siadd st.pluggedmem memsize
    let tm ← siadd st.totalmem memsize
    let obj := st.objectparams ++ [dimmObj]
    let dev := st.deviceparams ++ [dimmDev]
    let st2 := { st with lastmem := lastmem, totalmem := tm, pluggedmem := pm, memslots := st.memslots + 1, objectparams := obj, deviceparams := dev }
    pure (st2, cur ++ [plainNuma])
  else if memdimm = "unplugged" then
    let um ← siadd st.unpluggedmem memsize
    let tm ← siadd st.totalmem memsize
    let obj := st.objectparams ++ [dimmObj]
    let st2 := { st with lastmem := lastmem, totalmem := tm, unpluggedmem := um, memslots := st.memslots + 1, objectparams := obj }
    pure (st2, cur ++ [plainNuma])
  else
    .error ("unsupported dimm '" ++ memdimm ++ "', expected 'plugged' or 'unplugged'")

/-- The `for nvmem in range(nvmemcount)` body: one nv memory region. -/
def qNvmemStep (nvmemsize memdimm : String) (st : QState) (cur : List String) :
    Except String (QState × List String) := do
  let lastnvmem := st.lastnvmem + 1
  let lastmem := st.lastmem + 1
  let machineparam := if lastnvmem == 0 then st.machineparam ++ ",nvdimm=on"
    else st.machineparam
  let nvbuiltinObj := "-object memory-backend-ram,size=" ++ nvmemsize
    ++ ",id=memnvbuiltin_" ++ toString lastmem ++ "_node_" ++ toString st.lastnode
  let nvbuiltinNuma := "-numa node,nodeid=" ++ toString st.lastnode
    ++ ",memdev=memnvbuiltin_" ++ toString lastmem ++ "_node_" ++ toString st.lastnode
  let nvdimmObj := "-object memory-backend-ram,size=" ++ nvmemsize
    ++ ",id=memnvdimm_" ++ toString lastmem ++ "_node_" ++ toString st.lastnode
  let plainNuma := "-numa node,nodeid=" ++ toString st.lastnode
  let nvdimmDev := "-device nvdimm,node=" ++ toString st.lastnode ++ ",id=nvdimm"
    ++ toString lastmem ++ ",memdev=memnvdimm_" ++ toString lastmem
    ++ "_node_" ++ toString st.lastnode
  if memdimm = "" then
    let tnv ← siadd st.totalnvmem nvmemsize
    let obj := st.objectparams ++ [nvbuiltinObj]
    let st2 := { st with lastnvmem := lastnvmem, lastmem := lastmem, machineparam := machineparam, totalnvmem := tnv, objectparams := obj }
    pure (st2, cur ++ [nvbuiltinNuma])
  else if memdimm = "plugged" then
    let pm ← siadd st.pluggedmem nvmemsize
    let tnv ← siadd st.totalnvmem nvmemsize
    let obj := st.objectparams ++ [nvdimmObj]
    let dev := st.deviceparams ++ [nvdimmDev]
    let st2 := { st with lastnvmem := lastnvmem, lastmem := lastmem, machineparam := machineparam, totalnvmem := tnv, pluggedmem := pm, memslots := st.memslots + 1, objectparams := obj, deviceparams := dev }
    pure (st2, cur ++ [plainNuma])
  else if memdimm = "unplugged" then
    let um ← siadd st.unpluggedmem nvmemsize
    let tnv ← siadd st.totalnvmem nvmemsize
    let obj := st.objectparams ++ [nvdimmObj]
    let st2 := { st with lastnvmem := lastnvmem, lastmem := lastmem, machineparam := machineparam, totalnvmem := tnv, unpluggedmem := um, memslots := st.memslots + 1, objectparams := obj }
    pure (st2, cur ++ [plainNuma])
  else
    .error ("unsupported dimm '" ++ memdimm ++ "', expected 'plugged' or 'unplugged'")

/-- The `for node in range(nodecount)` body of the main loop. -/
def qNodeStep (cpucount : Int) (memcount nvmemcount : Nat)
    (memsize nvmemsize memdimm : String) (st : QState) : Except String QState := do
  let st := { st with lastnode := st.lastnode + 1 }
  let p ← (List.range memcount).foldlM
    (fun (p : QState × List String) _ => qMemStep memsize memdimm p.1 p.2) (st, [])
  let p ← (List.range nvmemcount).foldlM
    (fun (p : QState × List String) _ => qNvmemStep nvmemsize memdimm p.1 p.2) p
  if cpucount > 0 then do
    let cur := if p.2.isEmpty then ["-numa node,nodeid=" ++ toString p.1.lastnode] else p.2
    let cpusSuffix := ",cpus=" ++ toString (p.1.lastcpu + 1) ++ "-"
      ++ toString (p.1.lastcpu + cpucount)
    let cur2 ← NumaJson.modifyLast cur (fun last => last ++ cpusSuffix)
    let np := p.1.numaparams ++ cur2
    pure { p.1 with lastcpu := p.1.lastcpu + cpucount, numaparams := np }
  else
    pure { p.1 with numaparams := p.1.numaparams ++ p.2 }

/-- One group of the main loop of `qemuopts`.  The threads-mismatch error
message elides the `%r`-interpolated specs of the source. -/
def qGroupStep (st : QState) (gi : Nat) (spec : TSpec) : Except String QState := do
  let nodecount := spec.nodes
  let gnodes := NumaJson.intRange (st.lastnode + 1) (st.lastnode + 1 + nodecount)
  let st := { st with groupnodes := odInsert st.groupnodes gi gnodes }
  let corecount := spec.cores
  let st ← show Except String QState from
    if corecount > 0 then
      if st.threadcount < 0 then
        pure { st with threadcount := ((spec.threads.getD 2 : Nat) : Int) }
      else
        match spec.threads with
        | some t =>
          if st.threadcount ≠ (t : Int) then
            .error "all CPUs must have the same number of threads"
          else pure st
        | none => pure st
    else pure st
  let cpucount : Int := (corecount : Int) * st.threadcount
  let memsize := spec.mem.getD "0"
  let memdimm := spec.dimm.getD ""
  let memcount : Nat := if memsize ≠ "0" then 1 else 0
  let nvmemsize := spec.nvmem.getD "0"
  let nvmemcount : Nat := if nvmemsize ≠ "0" then 1 else 0
  (List.range spec.packages).foldlM (fun (st : QState) _ => do
    let st := if nodecount > 0 && cpucount > 0
      then { st with lastsocket := st.lastsocket + 1 } else st
    (List.range spec.dies).foldlM (fun (st : QState) _ => do
      let st := if nodecount > 0 && cpucount > 0
        then { st with lastdie := st.lastdie + 1 } else st
      (List.range nodecount).foldlM
        (fun st _ => qNodeStep cpucount memcount nvmemcount memsize nvmemsize memdimm st)
        st) st) st

/-- The distance-directive loop of `qemuopts`: one `-numa dist` token per
off-diagonal cell of the resolved dict, in sorted key order. -/
def qDistParams (dd : DD) (numaparams : List String) : List String :=
  (isortNat (dd.map Prod.fst)).foldl (fun params s =>
    let row := (odLookup dd s).getD []
    (isortNat (row.map Prod.fst)).foldl (fun params d =>
      if s == d then params
      else params ++ ["-numa dist,src=" ++ toString s ++ ",dst=" ++ toString d
        ++ ",val=" ++ toString ((odLookup row d).getD 0)]) params) numaparams

/-- `qemuopts(numalist)` of topology2qemuopts.py.  `validate` raises a
`ValueError` whose per-key message is elided here.  In the source the
dies/sockets division runs only after the no-CPU check, so the divisor
`lastsocket + 1` is positive there (Lean division by zero, unreachable,
would yield 0 rather than a `ZeroDivisionError`). -/
def qemuopts (numalist : List TSpec) : Except String String := do
  if validate numalist then
    let st ← numalist.enum.foldlM (fun (st : QState) p => qGroupStep st p.1 p.2) {}
    let node_node_dist ← dists numalist
    let numaparams := qDistParams node_node_dist st.numaparams
    if st.lastcpu == -1 then
      .error "no CPUs found, make sure at least one NUMA node has \"cores\" > 0"
    else
      let diesparam := if (st.lastdie + 1) / (st.lastsocket + 1) > 1
        then ",dies=" ++ toString ((st.lastdie + 1) / (st.lastsocket + 1)) else ""
      let cpuparam := "-smp cpus=" ++ toString (st.lastcpu + 1) ++ ",threads="
        ++ toString st.threadcount ++ diesparam ++ ",sockets=" ++ toString (st.lastsocket + 1)
      let maxmem ← siadd st.totalmem st.totalnvmem
      let sm1 ← sisub maxmem st.unpluggedmem
      let startmem ← sisub sm1 st.pluggedmem
      let memparam := "-m size=" ++ startmem ++ ",slots=" ++ toString st.memslots
        ++ ",maxmem=" ++ maxmem
      if startsWithZero startmem then
        if startsWithZero st.pluggedmem then
          .error "no memory in any NUMA node"
        else
          .error "no initial memory in any NUMA node - cannot boot with hotpluggable memory"
      else
        pure (st.machineparam ++ " " ++ cpuparam ++ " " ++ memparam ++ " "
          ++ String.intercalate " " numaparams ++ " "
          ++ String.intercalate " " st.deviceparams ++ " "
          ++ String.intercalate " " st.objectparams)
  else
    .error "invalid numalist"

/-- Invariant of the main loop of `qemuopts` when every group has zero cores:
no CPU id has been allocated, and the four memory accumulators stay in the
form `siadd`/`sisub` accept. -/
def qInv (st : QState) : Prop :=
  st.lastcpu = -1 ∧ gform st.totalmem ∧ gform st.totalnvmem ∧
    gform st.pluggedmem ∧ gform st.unpluggedmem

/-- The dimm values on which the memory loops of `qemuopts` do not raise. -/
def dimmOk (memdimm : String) : Prop :=
  memdimm = "" ∨ memdimm = "plugged" ∨ memdimm = "unplugged"

end Topo2Q

namespace NumactlH

open PyDict PyStr Topo2Q

/-! ## demo/lib/numactlH2numajson.py — `add_dists_to_numalist`

The compactor is modeled for a dict-shaped `dists` argument (the
`{sourcenode: {destnode: dist}}` form produced by the expander), i.e. the
`else` branch of its `isinstance(dists, list)` test.  In that branch the
code first materializes a complete `(lastnode+1)²` matrix, so every later
`dist_matrix[s][d]` read (for `s, d ≤ lastnode`) equals the cell formula
`ddCell` below and the `IndexError` guard of the frequency loop is
unreachable. -/

/-- Module constant `QEMU_DEFAULT_DIST_OTHER`. -/
def QEMU_DEFAULT_DIST_OTHER : Int := 20

/-- Module constant `QEMU_DEFAULT_DIST_SELF`. -/
def QEMU_DEFAULT_DIST_SELF : Int := 10

/-- State of the first loop of `add_dists_to_numalist`: consecutive node
ids per group.  `n` is the number of nodes assigned so far (the source's
`node + 1`); Python's per-group `set` of nodes is kept as an ascending
list. -/
structure CScan where
  n : Nat := 0
  group_nodes : List (Nat × List Nat) := []
  node_group : List (Nat × Nat) := []
  deriving Repr

/-- One group of the node-assignment loop. -/
def cGroupStep (st : CScan) (gi : Nat) (spec : TSpec) : CScan :=
  (List.range spec.nodes).foldl (fun st _ =>
    { st with n := st.n + 1, group_nodes := odInsert st.group_nodes gi ((odLookup st.group_nodes gi).getD [] ++ [st.n]), node_group := odInsert st.node_group st.n gi })
    { st with group_nodes := odInsert st.group_nodes gi [] }

/-- The node-assignment loop over the whole group list. -/
def cScan (numalist : List TSpec) : CScan :=
  numalist.enum.foldl (fun st p => cGroupStep st p.1 p.2) {}

/-- One cell of the matrix the dict branch builds:
`dists[s][d]` when present, else the QEMU default (20 off the diagonal,
10 on it). -/
def ddCell (dd : DD) (s d : Nat) : Int :=
  match ddLookup dd s d with
  | some v => v
  | none => if s ≠ d then QEMU_DEFAULT_DIST_OTHER else QEMU_DEFAULT_DIST_SELF

/-- `dist_matrix` as built from the dict argument. -/
def matrixOfDD (dd : DD) (n : Nat) : List (List Int) :=
  (List.range n).map fun s => (List.range n).map fun d => ddCell dd s d

/-- The `dist_freq` dict: off-diagonal distance value → occurrence count. -/
def distFreq (dd : DD) (n : Nat) : List (Int × Nat) :=
  (List.range n).foldl (fun fq s =>
    (List.range n).foldl (fun fq d =>
      if s = d then fq
      else odInsert fq (ddCell dd s d) ((odLookup fq (ddCell dd s d)).getD 0 + 1)) fq) []

/-- Python `max` over `[(v, k) for k, v in dist_freq.items()]`: lexicographic
maximum, first occurrence kept among equals. -/
def lexMaxPair : List (Nat × Int) → Option (Nat × Int)
  | [] => none
  | x :: xs => some (xs.foldl (fun cur y =>
      if cur.1 < y.1 ∨ (cur.1 = y.1 ∧ cur.2 < y.2) then y else cur) x)

/-- `default_dist`: the most common off-diagonal distance (largest value on
ties), or the self distance when there is no off-diagonal cell. -/
def defaultDist (dd : DD) (n : Nat) : Int :=
  match lexMaxPair ((distFreq dd n).map fun p => (p.2, p.1)) with
  | some p => p.2
  | none => QEMU_DEFAULT_DIST_SELF

/-- State of the symmetric-fill loop: `sym_dist_errors` and
`group_node_dist`. -/
structure SymState where
  errors : Nat := 0
  gnd : List (Nat × List (Int × Int)) := []
  deriving Repr

/-- Body of the inner `for destnode in ...` loop of the symmetric fill. -/
def symStepDest (dd : DD) (default_dist : Int) (gn : List Nat) (sgi s : Nat)
    (st : SymState) (d : Nat) : SymState :=
  if s = d then st
  else if ddCell dd s d = default_dist then st
  else if ddCell dd s d ≠ ddCell dd d s then { st with errors := st.errors + 1 }
  else
    let others := gn.filter fun o => !(o == s) && !(o == d)
    let errs := others.foldl (fun e o =>
      if ddCell dd o d ≠ ddCell dd s d ∨ ddCell dd o d ≠ ddCell dd d s then e + 1 else e)
      st.errors
    { errors := errs,
      gnd := odInsert st.gnd sgi (odInsert ((odLookup st.gnd sgi).getD []) (d : Int) (ddCell dd s d)) }

/-- Body of the outer `for sourcenode in ...` loop of the symmetric fill. -/
def symStepSrc (dd : DD) (default_dist : Int) (cs : CScan) (st : SymState)
    (s : Nat) : SymState :=
  let sgi := (odLookup cs.node_group s).getD 0
  let gn := (odLookup cs.group_nodes sgi).getD []
  let st := if (odLookup st.gnd sgi).isSome then st
    else { st with gnd := odInsert st.gnd sgi [] }
  (List.range cs.n).foldl (symStepDest dd default_dist gn sgi s) st

/-- Python `str` of an int-keyed int dict, e.g. `"\x7b1: 55\x7d"`. -/
def pyReprIntIntDict (d : List (Int × Int)) : String :=
  "\x7b" ++ String.intercalate ", " (d.map fun p => toString p.1 ++ ": " ++ toString p.2) ++ "\x7d"

/-- Python `str(group_node_dist)`. -/
def pyReprGnd (g : List (Nat × List (Int × Int))) : String :=
  "\x7b" ++ String.intercalate ", " (g.map fun p => toString p.1 ++ ": " ++ pyReprIntIntDict p.2) ++ "\x7d"

/-- Python `str` of an int list. -/
def pyReprRow (r : List Int) : String :=
  "[" ++ String.intercalate ", " (r.map toString) ++ "]"

/-- Python `str(dist_matrix)`. -/
def pyReprMatrix (m : List (List Int)) : String :=
  "[" ++ String.intercalate ", " (m.map pyReprRow) ++ "]"

/-- The clearing loop: `del` of "dist", "dist-all" and "node-dist". -/
def clearSpec (spec : TSpec) : TSpec :=
  { spec with dist := none, distAll := none, nodeDist := none }

/-- `numalist[-1]["dist-all"] = dist_matrix` (the caller guarantees the list
is nonempty there). -/
def setLastDistAll (l : List TSpec) (m : List (List Int)) : List TSpec :=
  match l.getLast? with
  | none => l
  | some last => l.dropLast ++ [{ last with distAll := some m }]

/-- `add_dists_to_numalist(numalist, dists)` of numactlH2numajson.py for a
dict-shaped `dists`, returning the mutated list.  The `KeyError` a group
without nodes would raise in the compact branch is an `Except.error`. -/
def add_dists_to_numalist (numalist : List TSpec) (dd : DD) : Except String (List TSpec) :=
  let cs := cScan numalist
  let m := matrixOfDD dd cs.n
  let default_dist := defaultDist dd cs.n
  let sym := (List.range cs.n).foldl (symStepSrc dd default_dist cs) {}
  let cleared := numalist.map clearSpec
  if sym.errors = 0 ∧ (pyReprGnd sym.gnd).length < (pyReprMatrix m).length then do
    let upd ← cleared.enum.mapM (fun p => do
      match odLookup sym.gnd p.1 with
      | none => Except.error "KeyError"
      | some g =>
        if g ≠ [] then
          let earlier : List Nat := (List.range p.1).flatMap fun eg => (odLookup cs.group_nodes eg).getD []
          let nwd := (g.map Prod.fst).filter fun d => !(earlier.any fun o => (o : Int) == d)
          if nwd.length > 0 then pure { p.2 with nodeDist := some g } else pure p.2
        else pure p.2)
    if default_dist ≠ QEMU_DEFAULT_DIST_OTHER then
      match upd with
      | [] => Except.error "list index out of range"
      | x :: rest => pure ({ x with dist := some default_dist } :: rest)
    else pure upd
  else if numalist.length > 1 then
    pure (setLastDistAll cleared m)
  else
    pure cleared

end NumactlH

namespace TopoPy

open PyDict PyStr

/-! ## demo/lib/topology.py — `dump_to_topology`

The three anchored regexes are modeled as direct prefix parsers (every
character class is followed by a literal starting with a character outside
the class, so greedy maximal runs need no backtracking).  Python floats are
modeled as exact rationals of the decimal literal; `round` is
round-half-to-even.  The nested output dict `tree` is kept as the log of
branches passed to `add_tree` (the dict is the trie of that log); the
`cpu_branch` / `node_branch` / `mem_branch` dicts are kept as dicts.
Uncaught Python exceptions (`max()` on an empty sequence, list indexing,
`eval("0x")`) are `Except.error` with the interpreter's message. -/

/-- `str.zfill`: pad with leading zeros to the given width, after a sign. -/
def zfill (s : String) (w : Nat) : String :=
  if s.length ≥ w then s
  else match s.data with
    | c :: rest =>
      if c = '-' ∨ c = '+' then String.mk (c :: (List.replicate (w - s.length) '0' ++ rest))
      else String.mk (List.replicate (w - s.length) '0' ++ s.data)
    | [] => String.mk (List.replicate w '0')

/-- Insert keeping existing equal elements first (stability). -/
def insSortBy {α : Type} (lt : α → α → Bool) (x : α) : List α → List α
  | [] => [x]
  | y :: r => if lt x y then x :: y :: r else y :: insSortBy lt x r

/-- Stable insertion sort: Python `list.sort()` for a strict-less test. -/
def isortBy {α : Type} (lt : α → α → Bool) (l : List α) : List α :=
  l.foldl (fun acc x => insSortBy lt x acc) []

/-- Strict less-than on ints as a Bool. -/
def intLt (a b : Int) : Bool := decide (a < b)

/-- An exact nonnegative decimal `num / den` standing for the Python float
of a `[0-9.]+` literal (`den` a positive power of ten). -/
structure PyFloat where
  num : Nat
  den : Nat
  deriving Repr, DecidableEq

/-- Python `<` on the exact decimals. -/
def pyFloatLt (a b : PyFloat) : Bool := decide (a.num * b.den < b.num * a.den)

/-- Python tuple order on `(node, size)` pairs. -/
def memLt (a b : Nat × PyFloat) : Bool :=
  decide (a.1 < b.1) || (a.1 == b.1 && pyFloatLt a.2 b.2)

/-- Lexicographic order on int lists (Python tuple comparison). -/
def listIntLt : List Int → List Int → Bool
  | [], [] => false
  | [], _ :: _ => true
  | _ :: _, [] => false
  | a :: as, b :: bs => if a < b then true else if b < a then false else listIntLt as bs

/-- Python tuple order on `(node, distance-tuple)` pairs. -/
def distLt (a b : Nat × List Int) : Bool :=
  decide (a.1 < b.1) || (a.1 == b.1 && listIntLt a.2 b.2)

/-- Python `max` of a list (ValueError on an empty one). -/
def pyMax (l : List Nat) : Except String Nat :=
  match l with
  | [] => Except.error "max() arg is an empty sequence"
  | x :: xs => Except.ok (xs.foldl max x)

/-- Python `round(x / m)` for a nonnegative exact decimal `x` and positive
integer `m`: round half to even. -/
def pyRoundDiv (x : PyFloat) (m : Nat) : Nat :=
  let D := x.den * m
  let f := x.num / D
  let r := x.num % D
  if 2 * r < D then f else if 2 * r > D then f + 1 else if f % 2 = 0 then f else f + 1

/-- Match a literal, return the rest. -/
def litP (pat : String) (cs : List Char) : Option (List Char) :=
  if pat.data.isPrefixOf cs then some (cs.drop pat.data.length) else none

/-- `[0-9]+`: maximal nonempty digit run as a number. -/
def digits1 (cs : List Char) : Option (Nat × List Char) :=
  let run := cs.takeWhile Char.isDigit
  if run.isEmpty then none else some (digitsToNat run, cs.dropWhile Char.isDigit)

/-- `[0-9]*`: maximal (possibly empty) digit run; `int("")` raising
ValueError and being caught into `die = 0` coincides with the value 0. -/
def digits0 (cs : List Char) : Nat × List Char :=
  (digitsToNat (cs.takeWhile Char.isDigit), cs.dropWhile Char.isDigit)

/-- The `[0-9a-f,]` class of the thread-siblings group. -/
def isTsibChar (c : Char) : Bool := c.isDigit || (('a' ≤ c) && (c ≤ 'f')) || c == ','

/-- `re_cpu_line.match`: groups (package, die, node, core, raw thread
siblings, cpu id). -/
def parseCpuLine (line : String) : Option (Nat × Nat × Nat × Nat × List Char × Nat) := do
  let r ← litP "cpu p:" line.data
  let (package, r) ← digits1 r
  let r ← litP " d:" r
  let (die, r) := digits0 r
  let r ← litP " n:" r
  let (node, r) ← digits1 r
  let r ← litP " c:" r
  let (core, r) ← digits1 r
  let r ← litP " t:" r
  let tsib := r.takeWhile isTsibChar
  if tsib.isEmpty then none
  else do
    let r := r.dropWhile isTsibChar
    let r ← litP " cpu:" r
    let (cpu_id, _) ← digits1 r
    some (package, die, node, core, tsib, cpu_id)

/-- `re_mem_line.match`: groups (node, raw size). -/
def parseMemLine (line : String) : Option (Nat × List Char) := do
  let r ← litP "mem n:" line.data
  let (node, r) ← digits1 r
  let r ← litP " s:" r
  let run := r.takeWhile fun c => c.isDigit || c == '.'
  if run.isEmpty then none else some (node, run)

/-- `.strip().split()` of a digits-and-spaces run, each token as an int.
`acc` holds the digits of the current token in reverse. -/
def splitIntsAux : List Char → List Char → List Int
  | [], acc => if acc.isEmpty then [] else [(digitsToNat acc.reverse : Int)]
  | c :: cs, acc =>
    if c = ' ' then
      if acc.isEmpty then splitIntsAux cs []
      else (digitsToNat acc.reverse : Int) :: splitIntsAux cs []
    else splitIntsAux cs (c :: acc)

def splitInts (cs : List Char) : List Int := splitIntsAux cs []

/-- `re_dist_line.match`: groups (node, distance ints). -/
def parseDistLine (line : String) : Option (Nat × List Int) := do
  let r ← litP "dist n:" line.data
  let (node, r) ← digits1 r
  let r ← litP " d:" r
  let run := r.takeWhile fun c => c.isDigit || c == ' '
  if run.isEmpty then none else some (node, splitInts run)

/-- `float` of a `[0-9.]+` token: at least one digit and at most one dot,
exact decimal value. -/
def pyFloatOfRun? (cs : List Char) : Option PyFloat :=
  if cs.any Char.isDigit && (cs.countP fun c => c == '.') ≤ 1 then
    let ip := cs.takeWhile fun c => !(c == '.')
    let fp := (cs.dropWhile fun c => !(c == '.')).drop 1
    some ⟨digitsToNat ip * 10 ^ fp.length + digitsToNat fp, 10 ^ fp.length⟩
  else none

/-- Value of a nonempty hex-digit run. -/
def hexDigitVal (c : Char) : Nat :=
  if c.isDigit then c.toNat - '0'.toNat else c.toNat - 'a'.toNat + 10

def hexVal (cs : List Char) : Nat := cs.foldl (fun a c => a * 16 + hexDigitVal c) 0

/-- One parsed cpu line of `numeric_cpu_lines`. -/
structure CpuLine where
  package : Nat
  die : Nat
  node : Nat
  core : Nat
  thread : Int
  cpu_id : Nat
  deriving Repr, DecidableEq

/-- The thread id: bits of `thread_siblings` at positions `0..cpu_id` are
counted, minus one. -/
def threadRank (sib cpu_id : Nat) : Int :=
  (((List.range (cpu_id + 1)).countP fun i => Nat.testBit sib i : Nat) : Int) - 1

/-- The three numeric line lists accumulated by the scan loop. -/
structure TLines where
  cpu : List CpuLine := []
  mem : List (Nat × PyFloat) := []
  dist : List (Nat × List Int) := []
  deriving Repr

/-- One iteration of the line loop: first matching shape wins, a line
matching none is skipped.  `eval("0x")` on a comma-only siblings group and
`float` of a dotted run without digits are uncaught errors. -/
def classifyLine (st : TLines) (line : String) : Except String TLines :=
  match parseCpuLine line with
  | some (package, die, node, core, tsib, cpu_id) =>
    let hexs := tsib.filter fun c => !(c == ',')
    if hexs.isEmpty then Except.error "unexpected EOF while parsing"
    else
      let thread := threadRank (hexVal hexs) cpu_id
      Except.ok { st with cpu := st.cpu ++ [⟨package, die, node, core, thread, cpu_id⟩] }
  | none =>
    match parseMemLine line with
    | some (node, run) =>
      match pyFloatOfRun? run with
      | some sz => Except.ok { st with mem := st.mem ++ [(node, sz)] }
      | none => Except.error "could not convert string to float"
    | none =>
      match parseDistLine line with
      | some (node, ints) => Except.ok { st with dist := st.dist ++ [(node, ints)] }
      | none => Except.ok st

/-- Output of `dump_to_topology`: the log of branches passed to `add_tree`
and the three branch dicts. -/
structure TreeSt where
  tree : List (List String) := []
  cpu_branch : List (Nat × List String) := []
  node_branch : List (Nat × List String) := []
  mem_branch : List (Nat × List String) := []
  deriving Repr, DecidableEq

/-- The `("mem", mem_node_name, node_mem_size)` suffix of a memory branch. -/
def memTriple (node mn : Nat) (sz : PyFloat) : List String :=
  ["mem", "node" ++ zfill (toString node) mn, toString (pyRoundDiv sz 1024) ++ "G"]

/-- Memory leaf attached under the node's own CPU branch. -/
def attachResult (acc : TreeSt) (node : Nat) (nb : List String) (mn : Nat) (sz : PyFloat) : TreeSt :=
  { acc with tree := acc.tree ++ [nb ++ memTriple node mn sz], mem_branch := odInsert acc.mem_branch node (nb ++ memTriple node mn sz) }

/-- Memory leaf grafted under another node's branch. -/
def graftResult (acc : TreeSt) (node : Nat) (mb : List String) (mn : Nat) (sz : PyFloat) : TreeSt :=
  { acc with tree := acc.tree ++ [mb ++ memTriple node mn sz], node_branch := odInsert acc.node_branch node ((mb ++ memTriple node mn sz).take 3), mem_branch := odInsert acc.mem_branch node (mb ++ memTriple node mn sz) }

/-- Synthetic top-level orphan branch. -/
def orphanResult (acc : TreeSt) (node mn : Nat) (sz : PyFloat) : TreeSt :=
  { acc with tree := acc.tree ++ [["packagex", "mem", "node" ++ zfill (toString node) mn] ++ memTriple node mn sz], node_branch := odInsert acc.node_branch node ((["packagex", "mem", "node" ++ zfill (toString node) mn] ++ memTriple node mn sz).take 3), mem_branch := odInsert acc.mem_branch node (["packagex", "mem", "node" ++ zfill (toString node) mn] ++ memTriple node mn sz) }

/-- One `(node, distvec)` iteration of the memory loop.  The memory size is
read by position in the sorted mem-line list (IndexError when missing);
`dists[0]` / `dists[1]` are IndexErrors on too-short vectors. -/
def memStep (mn : Nat) (mems : List (Nat × PyFloat)) (acc : TreeSt)
    (nd : Nat × List Int) : Except String TreeSt := do
  let node := nd.1
  let distvec := nd.2
  let sz ← match mems.get? node with
    | some p => Except.ok p.2
    | none => Except.error "list index out of range"
  let ds := isortBy intLt distvec
  match odLookup acc.node_branch node with
  | some nb => pure (attachResult acc node nb mn sz)
  | none =>
    match ds.get? 0 with
    | none => Except.error "list index out of range"
    | some d0 =>
      if d0 = 10 ∧ (ds.length < 3 ∨ ds.getD 1 0 < ds.getD 2 0) then
        match ds.get? 1 with
        | none => Except.error "list index out of range"
        | some d1 =>
          match odLookup acc.node_branch (distvec.indexOf d1) with
          | some mb => pure (graftResult acc node mb mn sz)
          | none => pure (orphanResult acc node mn sz)
      else pure (orphanResult acc node mn sz)

/-- One cpu line of the tree-building loop. -/
def cpuTreeStep (mp md mn mc mt mcpu : Nat) (acc : TreeSt) (c : CpuLine) : TreeSt :=
  let branch := ["package" ++ zfill (toString c.package) mp, "die" ++ zfill (toString c.die) md, "node" ++ zfill (toString c.node) mn, "core" ++ zfill (toString c.core) mc, "thread" ++ zfill (toString c.thread) mt, "cpu" ++ zfill (toString c.cpu_id) mcpu]
  { acc with tree := acc.tree ++ [branch], cpu_branch := odInsert acc.cpu_branch c.cpu_id branch, node_branch := odInsert acc.node_branch c.node (branch.take 3) }

/-- `dump_to_topology(dump, show_mem)` of topology.py over the split lines
of the dump. -/
def dump_to_topology (dump : List String) (show_mem : Bool) : Except String TreeSt := do
  let tl ← dump.foldlM classifyLine {}
  let mems := isortBy memLt tl.mem
  let dlines := isortBy distLt tl.dist
  let mp ← pyMax (tl.cpu.map fun c => (toString c.package).length)
  let md ← pyMax (tl.cpu.map fun c => (toString c.die).length)
  let mn ← pyMax (tl.cpu.map fun c => (toString c.node).length)
  let mc ← pyMax (tl.cpu.map fun c => (toString c.core).length)
  let mt ← pyMax (tl.cpu.map fun c => (toString c.thread).length)
  let mcpu ← pyMax (tl.cpu.map fun c => (toString c.cpu_id).length)
  let st1 := tl.cpu.foldl (cpuTreeStep mp md mn mc mt mcpu) {}
  if show_mem then
    dlines.foldlM (memStep mn mems) st1
  else
    pure st1

/-- The grafting conditions as the spec words them for a distance line of a
CPU-less node `n`: self distance 10, `m` distinct with the strictly
smallest non-self distance (strictly below every other non-self distance),
and `m` already placed. -/
def specGraftCond (distvec : List Int) (n m : Nat)
    (node_branch : List (Nat × List String)) : Prop :=
  distvec.getD n 0 = 10 ∧ m ≠ n ∧ m < distvec.length ∧
  (∀ k, k < distvec.length → k ≠ n → k ≠ m → distvec.getD m 0 < distvec.getD k 0) ∧
  (odLookup node_branch m).isSome = true

instance (distvec : List Int) (n m : Nat) (nb : List (Nat × List String)) :
    Decidable (specGraftCond distvec n m nb) := by
  unfold specGraftCond
  infer_instance

/-- The hardware dump of the C9 analysis: nodes 0 and 1 carry CPUs, node 2
is memory-only with distance vector (8, 30, 10). -/
def c9dump : List String :=
  ["cpu p:0 d:0 n:0 c:0 t:1 cpu:0",
   "cpu p:0 d:0 n:1 c:1 t:2 cpu:1",
   "mem n:0 s:1024",
   "mem n:1 s:1024",
   "mem n:2 s:1024",
   "dist n:0 d:10 20 8",
   "dist n:1 d:20 10 30",
   "dist n:2 d:8 30 10"]

end TopoPy

/-! # Theorems -/

namespace PyDict

theorem odLookup_odInsert {κ : Type} [DecidableEq κ] {α : Type}
    (l : List (κ × α)) (k k' : κ) (v : α) :
    odLookup (odInsert l k v) k' = if k = k' then some v else odLookup l k' := by
  induction l with
  | nil => simp [odInsert, odLookup]
  | cons hd tl ih =>
    obtain ⟨k0, v0⟩ := hd
    by_cases h0 : k0 = k
    · subst h0
      by_cases h1 : k0 = k'
      · subst h1; simp [odInsert, odLookup]
      · simp [odInsert, odLookup, h1]
    · by_cases h1 : k0 = k'
      · subst h1
        have hkk : ¬ k = k0 := fun h => h0 h.symm
        simp [odInsert, odLookup, h0, hkk]
      · simp [odInsert, odLookup, h0, h1, ih]

theorem odLookup_odInsert_self {κ : Type} [DecidableEq κ] {α : Type}
    (l : List (κ × α)) (k : κ) (v : α) :
    odLookup (odInsert l k v) k = some v := by
  simp [odLookup_odInsert]

theorem odLookup_odInsert_ne {κ : Type} [DecidableEq κ] {α : Type}
    (l : List (κ × α)) (k k' : κ) (v : α) (h : k ≠ k') :
    odLookup (odInsert l k v) k' = odLookup l k' := by
  simp [odLookup_odInsert, h]

end PyDict

namespace FoldUtil

theorem foldl_inv {α β : Type} {P : α → Prop} (f : α → β → α) (l : List β) (a : α)
    (h0 : P a) (hstep : ∀ a b, P a → P (f a b)) : P (l.foldl f a) := by
  induction l generalizing a with
  | nil => exact h0
  | cons hd tl ih => exact ih (f a hd) (hstep a hd h0)

theorem foldl_inv_mem {α β : Type} {P : α → Prop} (f : α → β → α) (l : List β) (a : α)
    (h0 : P a) (hstep : ∀ a b, b ∈ l → P a → P (f a b)) : P (l.foldl f a) := by
  induction l generalizing a with
  | nil => exact h0
  | cons hd tl ih =>
    exact ih (f a hd) (hstep a hd (List.mem_cons_self hd tl) h0)
      (fun a b hb => hstep a b (List.mem_cons_of_mem hd hb))

theorem foldl_rel {α β : Type} {R : α → α → Prop} (f : α → β → α) (l : List β)
    (a1 a2 : α) (h : R a1 a2) (hstep : ∀ a1 a2 b, R a1 a2 → R (f a1 b) (f a2 b)) :
    R (l.foldl f a1) (l.foldl f a2) := by
  induction l generalizing a1 a2 with
  | nil => exact h
  | cons hd tl ih => exact ih (f a1 hd) (f a2 hd) (hstep a1 a2 hd h)

theorem foldl_rel2 {α β : Type} {R : α → α → Prop} (f g : α → β → α) (l : List β)
    (a1 a2 : α) (h : R a1 a2)
    (hstep : ∀ a1 a2 b, b ∈ l → R a1 a2 → R (f a1 b) (g a2 b)) :
    R (l.foldl f a1) (l.foldl g a2) := by
  induction l generalizing a1 a2 with
  | nil => exact h
  | cons hd tl ih =>
    exact ih (f a1 hd) (g a2 hd) (hstep a1 a2 hd (List.mem_cons_self hd tl) h)
      (fun x y b hb => hstep x y b (List.mem_cons_of_mem hd hb))

theorem exc_bind_ok {ε α β : Type} (a : α) (f : α → Except ε β) :
    ((Except.ok a : Except ε α) >>= f) = f a := rfl

theorem foldlM_exc_inv {ε α β : Type} {P : α → Prop} (f : α → β → Except ε α)
    (l : List β) (a : α) (h0 : P a)
    (hstep : ∀ a b, b ∈ l → P a → ∃ a', f a b = .ok a' ∧ P a') :
    ∃ a', l.foldlM f a = .ok a' ∧ P a' := by
  induction l generalizing a with
  | nil => exact ⟨a, rfl, h0⟩
  | cons b rest ih =>
    obtain ⟨a1, ha1, hP1⟩ := hstep a b (List.mem_cons_self b rest) h0
    obtain ⟨a2, ha2, hP2⟩ := ih a1 hP1
      (fun x y hy hP => hstep x y (List.mem_cons_of_mem b hy) hP)
    refine ⟨a2, ?_, hP2⟩
    rw [List.foldlM_cons, ha1, exc_bind_ok]
    exact ha2

theorem snd_mem_enumFrom {β : Type} :
    ∀ (l : List β) (n : Nat) (p : Nat × β), p ∈ List.enumFrom n l → p.2 ∈ l := by
  intro l
  induction l with
  | nil => intro n p hp; simp [List.enumFrom] at hp
  | cons x xs ih =>
    intro n p hp
    rcases List.mem_cons.mp hp with rfl | hp
    · exact List.mem_cons_self x xs
    · exact List.mem_cons_of_mem x (ih (n + 1) p hp)

theorem snd_mem_enum {β : Type} (l : List β) (p : Nat × β) (hp : p ∈ l.enum) :
    p.2 ∈ l := snd_mem_enumFrom l 0 p hp

theorem foldl_measure_add {α β : Type} (μ : α → Nat) (f : α → β → α) (c : Nat)
    (h : ∀ a b, μ (f a b) = μ a + c) (l : List β) (a : α) :
    μ (l.foldl f a) = μ a + l.length * c := by
  induction l generalizing a with
  | nil => simp
  | cons hd tl ih =>
    rw [List.foldl_cons, ih, h]
    simp [List.length_cons]
    ring

end FoldUtil

open FoldUtil

namespace PyStr

theorem digitChar_isDigit (m : Nat) (h : m < 10) : (Nat.digitChar m).isDigit = true := by
  interval_cases m <;> decide

theorem toDigitsCore_all_digits : ∀ (f n : Nat) (acc : List Char),
    acc.all Char.isDigit = true →
    (Nat.toDigitsCore 10 f n acc).all Char.isDigit = true := by
  intro f
  induction f with
  | zero => intro n acc h; simpa [Nat.toDigitsCore] using h
  | succ f ih =>
    intro n acc h
    have hd : (Nat.digitChar (n % 10)).isDigit = true :=
      digitChar_isDigit _ (by omega)
    show (if n / 10 = 0 then Nat.digitChar (n % 10) :: acc
      else Nat.toDigitsCore 10 f (n / 10) (Nat.digitChar (n % 10) :: acc)).all
        Char.isDigit = true
    split
    · simp [List.all_cons, hd, h]
    · exact ih _ _ (by simp [List.all_cons, hd, h])

theorem toDigitsCore_ne_nil : ∀ (f n : Nat) (acc : List Char),
    (0 < f ∨ acc ≠ []) → Nat.toDigitsCore 10 f n acc ≠ [] := by
  intro f
  induction f with
  | zero =>
    intro n acc h
    rcases h with h | h
    · omega
    · simpa [Nat.toDigitsCore] using h
  | succ f ih =>
    intro n acc _
    show (if n / 10 = 0 then Nat.digitChar (n % 10) :: acc
      else Nat.toDigitsCore 10 f (n / 10) (Nat.digitChar (n % 10) :: acc)) ≠ []
    split
    · simp
    · exact ih _ _ (Or.inr (by simp))

theorem pyInt_toString_isSome (n : Int) : (pyIntOfString? (toString n)).isSome = true := by
  cases n with
  | ofNat m =>
    have hall : (Nat.toDigits 10 m).all Char.isDigit = true :=
      toDigitsCore_all_digits _ _ [] rfl
    have hne : Nat.toDigits 10 m ≠ [] :=
      toDigitsCore_ne_nil _ _ [] (Or.inl (Nat.succ_pos m))
    show (pyIntOfString? (Nat.repr m)).isSome = true
    unfold pyIntOfString?
    rw [show (Nat.repr m).data = Nat.toDigits 10 m from rfl]
    cases hL : Nat.toDigits 10 m with
    | nil => exact absurd hL hne
    | cons c rest =>
      rw [hL] at hall
      have hc : c.isDigit = true :=
        List.all_eq_true.mp hall c (List.mem_cons_self c rest)
      have hcm : c ≠ '-' := by
        intro hcc
        rw [hcc] at hc
        exact absurd hc (by decide)
      rw [if_neg (by simp), if_neg (by simp [hcm]), if_pos hall]
      rfl
  | negSucc m =>
    have hall : (Nat.toDigits 10 (m + 1)).all Char.isDigit = true :=
      toDigitsCore_all_digits _ _ [] rfl
    have hne : Nat.toDigits 10 (m + 1) ≠ [] :=
      toDigitsCore_ne_nil _ _ [] (Or.inl (Nat.succ_pos _))
    show (pyIntOfString? ("-" ++ Nat.repr (m + 1))).isSome = true
    unfold pyIntOfString?
    rw [show ("-" ++ Nat.repr (m + 1)).data = '-' :: Nat.toDigits 10 (m + 1) from rfl]
    rw [if_neg (by simp), if_pos (by simp)]
    cases hL : Nat.toDigits 10 (m + 1) with
    | nil => exact absurd hL hne
    | cons c rest =>
      rw [hL] at hall
      rw [if_pos]
      · rfl
      · simp only [List.tail_cons, List.isEmpty_cons, Bool.not_false, Bool.true_and]
        exact hall

theorem string_append_G_data (s : String) : (s ++ "G").data = s.data ++ ['G'] := rfl

theorem siadd_ok (a b : String) (ha : gform a) (hb : gform b) :
    ∃ c, siadd a b = .ok c ∧ gform c := by
  obtain ⟨ha1, ha2⟩ := ha
  obtain ⟨hb1, hb2⟩ := hb
  obtain ⟨x, hx⟩ := Option.isSome_iff_exists.mp ha2
  obtain ⟨y, hy⟩ := Option.isSome_iff_exists.mp hb2
  unfold siadd
  rw [ha1, hb1, hx, hy]
  simp only [Bool.and_self, if_true]
  refine ⟨_, rfl, ?_, ?_⟩
  · unfold lastCharIsG
    rw [string_append_G_data, List.getLast?_concat]
    rfl
  · unfold dropLastStr
    rw [string_append_G_data, List.dropLast_concat]
    exact pyInt_toString_isSome (x + y)

end PyStr

namespace Topo2Q

/-! ### Lemmas about `dists` -/

theorem ddLookup_ddSet (dd : DD) (a b s d : Nat) (v : Int) :
    ddLookup (ddSet dd a b v) s d =
      if a = s ∧ b = d then some v else ddLookup dd s d := by
  unfold ddLookup ddSet
  by_cases hs : a = s
  · subst hs
    rw [odLookup_odInsert_self]
    by_cases hd : b = d
    · subst hd; simp [odLookup_odInsert_self]
    · simp only [hd, and_false, if_false, Option.some_bind]
      rw [odLookup_odInsert_ne _ _ _ _ hd]
      cases h : odLookup dd a with
      | none => simp [h, odLookup]
      | some row => simp [h]
  · rw [odLookup_odInsert_ne _ _ _ _ hs]
    simp [hs]

theorem ddLookup_ddSet_isSome (dd : DD) (a b s d : Nat) (v : Int)
    (h : (ddLookup dd s d).isSome) : (ddLookup (ddSet dd a b v) s d).isSome := by
  rw [ddLookup_ddSet]
  split <;> simp [h]

theorem addGroupNodes_fields (spec : TSpec) (st : ScanState) :
    (addGroupNodes spec st).dsd = st.dsd ∧ (addGroupNodes spec st).dsp = st.dsp ∧
    (addGroupNodes spec st).dop = st.dop ∧ (addGroupNodes spec st).dm = st.dm ∧
    (addGroupNodes spec st).nnd = st.nnd ∧ (addGroupNodes spec st).lnig = st.lnig := by
  unfold addGroupNodes
  apply foldl_inv (P := fun s : ScanState => s.dsd = st.dsd ∧ s.dsp = st.dsp ∧
    s.dop = st.dop ∧ s.dm = st.dm ∧ s.nnd = st.nnd ∧ s.lnig = st.lnig)
  · exact ⟨rfl, rfl, rfl, rfl, rfl, rfl⟩
  · intro a _ ha
    apply foldl_inv (P := fun s : ScanState => s.dsd = st.dsd ∧ s.dsp = st.dsp ∧
      s.dop = st.dop ∧ s.dm = st.dm ∧ s.nnd = st.nnd ∧ s.lnig = st.lnig)
    · split <;> simpa using ha
    · intro a2 _ ha2
      apply foldl_inv (P := fun s : ScanState => s.dsd = st.dsd ∧ s.dsp = st.dsp ∧
        s.dop = st.dop ∧ s.dm = st.dm ∧ s.nnd = st.nnd ∧ s.lnig = st.lnig)
      · exact ha2
      · intro a3 _ ha3
        simpa [nodeStep] using ha3

theorem addGroupNodes_n (spec : TSpec) (st : ScanState) :
    (addGroupNodes spec st).n = st.n + spec.packages * (spec.dies * spec.nodes) := by
  unfold addGroupNodes
  rw [foldl_measure_add (μ := ScanState.n) _ (spec.dies * spec.nodes)]
  · simp
  · intro a _
    rw [foldl_measure_add (μ := ScanState.n) _ spec.nodes]
    · split <;> simp
    · intro a2 _
      rw [foldl_measure_add (μ := ScanState.n) _ 1]
      · simp
      · intro a3 _
        simp [nodeStep]

theorem scanGroup_nVal (st : ScanState) (spec : TSpec) :
    (scanGroup st spec).n = (addGroupNodes spec st).n := rfl

theorem scanGroup_lnigVal (st : ScanState) (spec : TSpec) :
    (scanGroup st spec).lnig = ((addGroupNodes spec st).n : Int) := rfl

theorem scanGroup_ddVal (st : ScanState) (spec : TSpec) :
    (scanGroup st spec).dist_dict = (addGroupNodes spec st).dist_dict := rfl

theorem scanGroup_npdVal (st : ScanState) (spec : TSpec) :
    (scanGroup st spec).npd = (addGroupNodes spec st).npd := rfl

theorem scanGroup_n (st : ScanState) (spec : TSpec) :
    (scanGroup st spec).n = st.n + spec.packages * (spec.dies * spec.nodes) := by
  rw [scanGroup_nVal]
  exact addGroupNodes_n spec st

theorem scanGroup_lnig (st : ScanState) (spec : TSpec) :
    (scanGroup st spec).lnig = ((scanGroup st spec).n : Int) := by
  rw [scanGroup_nVal, scanGroup_lnigVal]

theorem scan_lnig (numalist : List TSpec) (h : numalist ≠ []) :
    (scan numalist).lnig = ((scan numalist).n : Int) := by
  unfold scan
  have key : ∀ (l : List TSpec) (st : ScanState),
      (l.foldl scanGroup st).lnig = ((l.foldl scanGroup st).n : Int) ∨
      (l = [] ∧ l.foldl scanGroup st = st) := by
    intro l
    induction l with
    | nil => intro st; exact Or.inr ⟨rfl, rfl⟩
    | cons g rest ih =>
      intro st
      rw [List.foldl_cons]
      rcases ih (scanGroup st g) with h1 | ⟨hrest, _⟩
      · exact Or.inl h1
      · subst hrest
        simp only [List.foldl_nil]
        exact Or.inl (scanGroup_lnig st g)
  rcases key numalist {} with h1 | h2
  · exact h1
  · exact absurd h2.1 h

theorem totalN_eq_sum (numalist : List TSpec) :
    totalN numalist = (numalist.map fun g => g.packages * (g.dies * g.nodes)).sum := by
  unfold totalN scan
  have key : ∀ (l : List TSpec) (st : ScanState),
      (l.foldl scanGroup st).n = st.n + (l.map fun g => g.packages * (g.dies * g.nodes)).sum := by
    intro l
    induction l with
    | nil => intro st; simp
    | cons g rest ih =>
      intro st
      rw [List.foldl_cons, ih, scanGroup_n]
      simp [Nat.add_assoc]
  rw [key]
  simp

/-- All rows created by the first loop of `dists` are empty dicts. -/
theorem scan_dist_dict_empty (numalist : List TSpec) (s d : Nat) :
    ddLookup (scan numalist).dist_dict s d = none := by
  unfold scan
  have key : ∀ (l : List TSpec) (st : ScanState),
      (∀ s d, ddLookup st.dist_dict s d = none) →
      (∀ s d, ddLookup (l.foldl scanGroup st).dist_dict s d = none) := by
    intro l
    induction l with
    | nil => intro st h; exact h
    | cons g rest ih =>
      intro st h
      rw [List.foldl_cons]
      apply ih
      -- scanGroup keeps the dist_dict of addGroupNodes
      have hag : ∀ s d, ddLookup (addGroupNodes g st).dist_dict s d = none := by
        unfold addGroupNodes
        apply foldl_inv (P := fun st' : ScanState => ∀ s d, ddLookup st'.dist_dict s d = none)
        · exact h
        · intro a _ ha
          apply foldl_inv (P := fun st' : ScanState => ∀ s d, ddLookup st'.dist_dict s d = none)
          · split <;> simpa using ha
          · intro a2 _ ha2
            apply foldl_inv (P := fun st' : ScanState => ∀ s d, ddLookup st'.dist_dict s d = none)
            · exact ha2
            · intro a3 _ ha3
              intro s d
              simp only [nodeStep, ddLookup]
              rw [odLookup_odInsert]
              split
              · simp [odLookup]
              · exact ha3 s d
      intro s d
      rw [scanGroup_ddVal]
      exact hag s d
  exact key numalist {} (fun _ _ => by simp [ddLookup, odLookup]) s d

theorem ddLookup_ddSet_self (dd : DD) (a b : Nat) (v : Int) :
    ddLookup (ddSet dd a b v) a b = some v := by
  rw [ddLookup_ddSet]; simp

theorem ddLookup_ddSet_of_ne (dd : DD) (a b s d : Nat) (v : Int)
    (h : ¬(a = s ∧ b = d)) : ddLookup (ddSet dd a b v) s d = ddLookup dd s d := by
  rw [ddLookup_ddSet]; simp [h]

theorem fillStep_inv (nnd : List (Nat × List (Int × Int)))
    (npd : List (Nat × (Int × Nat))) (dsd dsp dop : Int)
    (dd : DD) (pre : List (Nat × Nat)) (p : Nat × Nat)
    (h : cellsInv nnd dd pre) :
    cellsInv nnd (fillStep nnd npd dsd dsp dop dd p) (pre ++ [p]) := by
  obtain ⟨s, d⟩ := p
  obtain ⟨hA, hB, hC, hD⟩ := h
  unfold fillStep
  simp only
  by_cases hsd : s = d
  · -- diagonal iteration: dist_dict[s][s] = 10
    subst hsd
    rw [if_pos rfl]
    refine ⟨?_, ?_, ?_, ?_⟩
    · intro q hq
      rcases List.mem_append.mp hq with hq | hq
      · exact ddLookup_ddSet_isSome _ _ _ _ _ _ (hA q hq)
      · rcases List.mem_singleton.mp hq with rfl
        simp [ddLookup_ddSet_self]
    · intro q hq _
      rcases List.mem_append.mp hq with hq | hq
      · exact ddLookup_ddSet_isSome _ _ _ _ _ _ (hB q hq (by assumption))
      · rcases List.mem_singleton.mp hq with rfl
        simp [ddLookup_ddSet_self]
    · intro i
      by_cases hi : s = i
      · subst hi; right; exact ddLookup_ddSet_self dd s s _
      · rw [ddLookup_ddSet_of_ne dd s s i i _ (fun hc => hi hc.1)]
        exact hC i
    · intro a b hab hcov
      have hnab : ¬(s = a ∧ s = b) := fun hc => hab (hc.1 ▸ hc.2 ▸ rfl)
      have hnba : ¬(s = b ∧ s = a) := fun hc => hab (hc.2 ▸ hc.1 ▸ rfl)
      rw [ddLookup_ddSet_of_ne dd s s a b _ hnab, ddLookup_ddSet_of_ne dd s s b a _ hnba]
      rcases hD a b hab hcov with h1 | ⟨h2m, h2v⟩ | ⟨h3m, h3v⟩
      · exact Or.inl h1
      · refine Or.inr (Or.inl ⟨?_, h2v⟩)
        intro hc
        rcases List.mem_append.mp hc with hc | hc
        · exact h2m hc
        · rcases List.mem_singleton.mp hc with hc
          injection hc with e1 e2
          exact hab (e1.trans e2.symm)
      · refine Or.inr (Or.inr ⟨?_, h3v⟩)
        intro hc
        rcases List.mem_append.mp hc with hc | hc
        · exact h3m hc
        · rcases List.mem_singleton.mp hc with hc
          injection hc with e1 e2
          exact hab (e2.trans e1.symm)
  · simp only [if_neg hsd]
    cases hnn : nndLookup nnd s (d : Int) with
    | some v =>
      -- symmetric node-dist write: both (s,d) and (d,s) get v
      have hdsne : d ≠ s := fun hc => hsd hc.symm
      have cell_sd : ddLookup (ddSet (ddSet dd s d v) d s v) s d = some v := by
        rw [ddLookup_ddSet_of_ne _ d s s d v (fun hc => hsd (hc.1 ▸ hc.2 ▸ rfl))]
        exact ddLookup_ddSet_self dd s d v
      have cell_ds : ddLookup (ddSet (ddSet dd s d v) d s v) d s = some v :=
        ddLookup_ddSet_self _ d s v
      refine ⟨?_, ?_, ?_, ?_⟩
      · intro q hq
        rcases List.mem_append.mp hq with hq | hq
        · exact ddLookup_ddSet_isSome _ _ _ _ _ _
            (ddLookup_ddSet_isSome _ _ _ _ _ _ (hA q hq))
        · rcases List.mem_singleton.mp hq with rfl
          simp [cell_sd]
      · intro q hq _
        rcases List.mem_append.mp hq with hq | hq
        · exact ddLookup_ddSet_isSome _ _ _ _ _ _
            (ddLookup_ddSet_isSome _ _ _ _ _ _ (hB q hq (by assumption)))
        · rcases List.mem_singleton.mp hq with rfl
          simp [cell_ds]
      · intro i
        rw [ddLookup_ddSet_of_ne _ d s i i v (fun hc => hsd (hc.2 ▸ hc.1 ▸ rfl)),
          ddLookup_ddSet_of_ne dd s d i i v (fun hc => hsd (hc.1 ▸ hc.2 ▸ rfl))]
        exact hC i
      · intro a b hab hcov
        by_cases hcase1 : a = s ∧ b = d
        · obtain ⟨rfl, rfl⟩ := hcase1
          rw [cell_sd, cell_ds]
          exact Or.inl rfl
        · by_cases hcase2 : a = d ∧ b = s
          · obtain ⟨rfl, rfl⟩ := hcase2
            rw [cell_sd, cell_ds]
            exact Or.inl rfl
          · -- cells of the pair {a,b} are untouched
            have e1 : ddLookup (ddSet (ddSet dd s d v) d s v) a b = ddLookup dd a b := by
              rw [ddLookup_ddSet_of_ne _ d s a b v (fun hc => hcase2 ⟨hc.1.symm, hc.2.symm⟩),
                ddLookup_ddSet_of_ne dd s d a b v (fun hc => hcase1 ⟨hc.1.symm, hc.2.symm⟩)]
            have e2 : ddLookup (ddSet (ddSet dd s d v) d s v) b a = ddLookup dd b a := by
              rw [ddLookup_ddSet_of_ne _ d s b a v (fun hc => hcase1 ⟨hc.2.symm, hc.1.symm⟩),
                ddLookup_ddSet_of_ne dd s d b a v (fun hc => hcase2 ⟨hc.2.symm, hc.1.symm⟩)]
            rw [e1, e2]
            rcases hD a b hab hcov with h1 | ⟨h2m, h2v⟩ | ⟨h3m, h3v⟩
            · exact Or.inl h1
            · refine Or.inr (Or.inl ⟨?_, h2v⟩)
              intro hc
              rcases List.mem_append.mp hc with hc | hc
              · exact h2m hc
              · rcases List.mem_singleton.mp hc with hc
                exact hcase1 (by injection hc with e1 e2; exact ⟨e1, e2⟩)
            · refine Or.inr (Or.inr ⟨?_, h3v⟩)
              intro hc
              rcases List.mem_append.mp hc with hc | hc
              · exact h3m hc
              · rcases List.mem_singleton.mp hc with hc
                exact hcase2 (by injection hc with e1 e2; exact ⟨e2, e1⟩)
    | none =>
      by_cases hset : (ddLookup dd s d).isSome = true
      · -- already resolved: no write
        rw [if_pos hset]
        refine ⟨?_, ?_, ?_, ?_⟩
        · intro q hq
          rcases List.mem_append.mp hq with hq | hq
          · exact hA q hq
          · rcases List.mem_singleton.mp hq with rfl; exact hset
        · intro q hq hv
          rcases List.mem_append.mp hq with hq | hq
          · exact hB q hq hv
          · rcases List.mem_singleton.mp hq with rfl
            rw [hnn] at hv; simp at hv
        · exact hC
        · intro a b hab hcov
          rcases hD a b hab hcov with h1 | ⟨h2m, h2v⟩ | ⟨h3m, h3v⟩
          · exact Or.inl h1
          · refine Or.inr (Or.inl ⟨?_, h2v⟩)
            intro hc
            rcases List.mem_append.mp hc with hc | hc
            · exact h2m hc
            · rcases List.mem_singleton.mp hc with hc
              injection hc with e1 e2
              subst e1; subst e2
              rw [hnn] at h2v; simp at h2v
          · refine Or.inr (Or.inr ⟨?_, h3v⟩)
            intro hc
            rcases List.mem_append.mp hc with hc | hc
            · exact h3m hc
            · rcases List.mem_singleton.mp hc with hc
              injection hc with e1 e2
              subst e1; subst e2
              rw [hnn] at h3v; simp at h3v
      · -- unresolved: write the topology default into (s,d)
        rw [if_neg hset]
        refine ⟨?_, ?_, ?_, ?_⟩
        · intro q hq
          rcases List.mem_append.mp hq with hq | hq
          · exact ddLookup_ddSet_isSome _ _ _ _ _ _ (hA q hq)
          · rcases List.mem_singleton.mp hq with rfl
            simp [ddLookup_ddSet_self]
        · intro q hq hv
          rcases List.mem_append.mp hq with hq | hq
          · exact ddLookup_ddSet_isSome _ _ _ _ _ _ (hB q hq hv)
          · rcases List.mem_singleton.mp hq with rfl
            rw [hnn] at hv; simp at hv
        · intro i
          rw [ddLookup_ddSet_of_ne dd s d i i _ (fun hc => hsd (hc.1 ▸ hc.2 ▸ rfl))]
          exact hC i
        · intro a b hab hcov
          by_cases hcase1 : a = s ∧ b = d
          · -- the written cell is (a,b); its mirror is still unset
            obtain ⟨rfl, rfl⟩ := hcase1
            have hcvab : ¬(nndLookup nnd a (b : Int)).isSome = true := by
              rw [hnn]; simp
            have hcvba : (nndLookup nnd b (a : Int)).isSome = true := by
              rcases hcov with h | h
              · exact absurd h hcvab
              · exact h
            refine Or.inr (Or.inr ⟨?_, hcvba⟩)
            intro hc
            rcases List.mem_append.mp hc with hc | hc
            · exact hset (hB (b, a) hc hcvba)
            · rcases List.mem_singleton.mp hc with hc
              injection hc with e1 e2
              exact hab (e1 ▸ e2 ▸ rfl)
          · by_cases hcase2 : b = s ∧ a = d
            · -- the written cell is (b,a); its mirror is still unset
              obtain ⟨rfl, rfl⟩ := hcase2
              have hcvba : ¬(nndLookup nnd b (a : Int)).isSome = true := by
                rw [hnn]; simp
              have hcvab : (nndLookup nnd a (b : Int)).isSome = true := by
                rcases hcov with h | h
                · exact h
                · exact absurd h hcvba
              refine Or.inr (Or.inl ⟨?_, hcvab⟩)
              intro hc
              rcases List.mem_append.mp hc with hc | hc
              · exact hset (hB (a, b) hc hcvab)
              · rcases List.mem_singleton.mp hc with hc
                injection hc with e1 e2
                exact hab (e1 ▸ e2 ▸ rfl)
            · have e1 : ddLookup (ddSet dd s d (topoDefault npd dsd dsp dop s d)) a b
                  = ddLookup dd a b :=
                ddLookup_ddSet_of_ne dd s d a b _ (fun hc => hcase1 ⟨hc.1.symm, hc.2.symm⟩)
              have e2 : ddLookup (ddSet dd s d (topoDefault npd dsd dsp dop s d)) b a
                  = ddLookup dd b a :=
                ddLookup_ddSet_of_ne dd s d b a _ (fun hc => hcase2 ⟨hc.1.symm, hc.2.symm⟩)
              rw [e1, e2]
              rcases hD a b hab hcov with h1 | ⟨h2m, h2v⟩ | ⟨h3m, h3v⟩
              · exact Or.inl h1
              · refine Or.inr (Or.inl ⟨?_, h2v⟩)
                intro hc
                rcases List.mem_append.mp hc with hc | hc
                · exact h2m hc
                · rcases List.mem_singleton.mp hc with hc
                  exact hcase1 (by injection hc with f1 f2; exact ⟨f1, f2⟩)
              · refine Or.inr (Or.inr ⟨?_, h3v⟩)
                intro hc
                rcases List.mem_append.mp hc with hc | hc
                · exact h3m hc
                · rcases List.mem_singleton.mp hc with hc
                  exact hcase2 (by injection hc with f1 f2; exact ⟨f1, f2⟩)

theorem fillFold_inv (nnd : List (Nat × List (Int × Int)))
    (npd : List (Nat × (Int × Nat))) (dsd dsp dop : Int) :
    ∀ (L pre : List (Nat × Nat)) (dd : DD), cellsInv nnd dd pre →
      cellsInv nnd (L.foldl (fillStep nnd npd dsd dsp dop) dd) (pre ++ L) := by
  intro L
  induction L with
  | nil => intro pre dd h; simpa using h
  | cons q rest ih =>
    intro pre dd h
    rw [List.foldl_cons]
    have step := fillStep_inv nnd npd dsd dsp dop dd pre q h
    have := ih (pre ++ [q]) _ step
    simpa [List.append_assoc] using this

theorem mem_allPairs {a b n : Nat} (ha : a < n) (hb : b < n) : (a, b) ∈ allPairs n := by
  unfold allPairs
  rw [List.mem_flatMap]
  exact ⟨a, List.mem_range.mpr ha, List.mem_map.mpr ⟨b, List.mem_range.mpr hb, rfl⟩⟩

theorem allPairs_bounds {n : Nat} {p : Nat × Nat} (hp : p ∈ allPairs n) :
    p.1 < n ∧ p.2 < n := by
  unfold allPairs at hp
  rw [List.mem_flatMap] at hp
  obtain ⟨s, hs, hmap⟩ := hp
  rw [List.mem_map] at hmap
  obtain ⟨d, hd, rfl⟩ := hmap
  exact ⟨List.mem_range.mp hs, List.mem_range.mp hd⟩

theorem fillRowFrom_lookup (s : Nat) :
    ∀ (row : List Int) (k : Nat) (dd : DD) (x d : Nat),
    ddLookup (fillRowFrom s dd k row) x d =
      if x = s ∧ k ≤ d ∧ d < k + row.length then row[d - k]? else ddLookup dd x d := by
  intro row
  induction row with
  | nil =>
    intro k dd x d
    have hc : ¬(x = s ∧ k ≤ d ∧ d < k + ([] : List Int).length) := by
      rintro ⟨_, h1, h2⟩
      simp only [List.length_nil, Nat.add_zero] at h2
      omega
    rw [if_neg hc]
    rfl
  | cons v rest ih =>
    intro k dd x d
    have hstep : fillRowFrom s dd k (v :: rest)
        = fillRowFrom s (ddSet dd s k v) (k + 1) rest := rfl
    rw [hstep, ih]
    by_cases hx : x = s
    · subst hx
      by_cases hd1 : d < k + 1
      · by_cases hdk : d = k
        · subst hdk
          have hA : ¬(x = x ∧ d + 1 ≤ d ∧ d < d + 1 + rest.length) := by
            rintro ⟨_, h, _⟩; omega
          have hB : x = x ∧ d ≤ d ∧ d < d + (v :: rest).length := by
            refine ⟨rfl, Nat.le_refl _, ?_⟩
            simp
          rw [if_neg hA, if_pos hB, ddLookup_ddSet_self]
          simp
        · have hA : ¬(x = x ∧ k + 1 ≤ d ∧ d < k + 1 + rest.length) := by
            rintro ⟨_, h, _⟩; omega
          have hB : ¬(x = x ∧ k ≤ d ∧ d < k + (v :: rest).length) := by
            rintro ⟨_, h, _⟩; omega
          rw [if_neg hA, if_neg hB,
            ddLookup_ddSet_of_ne dd x k x d v (fun hc => hdk hc.2.symm)]
      · by_cases hd2 : d < k + 1 + rest.length
        · have hA : x = x ∧ k + 1 ≤ d ∧ d < k + 1 + rest.length :=
            ⟨rfl, by omega, hd2⟩
          have hB : x = x ∧ k ≤ d ∧ d < k + (v :: rest).length := by
            refine ⟨rfl, by omega, ?_⟩
            simp only [List.length_cons]
            omega
          rw [if_pos hA, if_pos hB]
          have hix : d - k = (d - (k + 1)) + 1 := by omega
          rw [hix]
          simp
        · have hA : ¬(x = x ∧ k + 1 ≤ d ∧ d < k + 1 + rest.length) := by
            rintro ⟨_, _, h⟩; omega
          have hB : ¬(x = x ∧ k ≤ d ∧ d < k + (v :: rest).length) := by
            rintro ⟨_, _, h⟩
            simp only [List.length_cons] at h
            omega
          rw [if_neg hA, if_neg hB,
            ddLookup_ddSet_of_ne dd x k x d v (fun hc => absurd hc.2 (by omega))]
    · rw [if_neg (by simp [hx]), if_neg (by simp [hx])]
      exact ddLookup_ddSet_of_ne dd s k x d v (fun hc => hx hc.1.symm)

theorem fillRow_lookup (dd : DD) (s : Nat) (row : List Int) (x d : Nat) :
    ddLookup (fillRow dd s row) x d =
      if x = s ∧ d < row.length then row[d]? else ddLookup dd x d := by
  unfold fillRow
  rw [fillRowFrom_lookup]
  simp

theorem fillRowsAux_ok_char (lastnode : Int) :
    ∀ (rows : List (List Int)) (s0 : Nat) (dd dd' : DD),
    fillRowsAux lastnode dd s0 rows = .ok dd' →
    (∀ r ∈ rows, (r.length : Int) = lastnode + 1) ∧
    (∀ x d, ddLookup dd' x d =
      if s0 ≤ x ∧ x < s0 + rows.length ∧ (d : Int) < lastnode + 1
      then (rows[x - s0]?.bind fun r => r[d]?)
      else ddLookup dd x d) := by
  intro rows
  induction rows with
  | nil =>
    intro s0 dd dd' h
    simp only [fillRowsAux] at h
    injection h with h
    subst h
    refine ⟨by simp, ?_⟩
    intro x d
    rw [if_neg]
    simp only [List.length_nil]
    omega
  | cons r rest ih =>
    intro s0 dd dd' h
    simp only [fillRowsAux] at h
    by_cases hlen : (r.length : Int) ≠ lastnode + 1
    · rw [if_pos hlen] at h
      exact absurd h (by simp)
    · rw [if_neg hlen] at h
      push_neg at hlen
      obtain ⟨hlens, hchar⟩ := ih (s0 + 1) (fillRow dd s0 r) dd' h
      refine ⟨?_, ?_⟩
      · intro q hq
        rcases List.mem_cons.mp hq with rfl | hq
        · exact hlen
        · exact hlens q hq
      · intro x d
        rw [hchar x d]
        by_cases hx0 : x = s0
        · subst hx0
          rw [if_neg (by omega), fillRow_lookup]
          by_cases hd : (d : Int) < lastnode + 1
          · have hdr : d < r.length := by
              have := hlen
              omega
            have hB : x ≤ x ∧ x < x + (r :: rest).length ∧ (d : Int) < lastnode + 1 := by
              refine ⟨Nat.le_refl _, ?_, hd⟩
              simp
            rw [if_pos ⟨rfl, hdr⟩, if_pos hB]
            simp
          · have hdr : ¬ d < r.length := by
              have := hlen
              omega
            have hB : ¬(x ≤ x ∧ x < x + (r :: rest).length ∧ (d : Int) < lastnode + 1) := by
              rintro ⟨_, _, hc⟩
              exact hd hc
            rw [if_neg (fun hc => hdr hc.2), if_neg hB]
        · by_cases hin : s0 + 1 ≤ x ∧ x < s0 + 1 + rest.length ∧ (d : Int) < lastnode + 1
          · have hB : s0 ≤ x ∧ x < s0 + (r :: rest).length ∧ (d : Int) < lastnode + 1 := by
              refine ⟨by omega, ?_, hin.2.2⟩
              simp only [List.length_cons]
              omega
            rw [if_pos hin, if_pos hB]
            have hix : x - s0 = (x - (s0 + 1)) + 1 := by omega
            rw [hix]
            simp
          · rw [if_neg hin, fillRow_lookup, if_neg (by simp [hx0])]
            rw [if_neg]
            rintro ⟨h1, h2, h3⟩
            apply hin
            refine ⟨by omega, ?_, h3⟩
            simp only [List.length_cons] at h2
            omega

theorem dists_nil : dists [] = .error "no NUMA nodes found" := rfl

theorem dists_eq_fill (numalist : List TSpec) (h : numalist ≠ [])
    (hdm : (scan numalist).dm = none) :
    dists numalist = .ok (fillPairs (scan numalist) (totalN numalist)) := by
  unfold dists
  rw [scan_lnig numalist h, hdm, if_neg (by simp)]
  show Except.ok (fillPairs (scan numalist) ((((scan numalist).n : Int) - 1 + 1).toNat)) = _
  have harith : ((((scan numalist).n : Int) - 1) + 1).toNat = totalN numalist := by
    unfold totalN
    omega
  rw [harith]

theorem dists_eq_matrix (numalist : List TSpec) (h : numalist ≠ [])
    {dmx : List (List Int)} (hdm : (scan numalist).dm = some dmx) :
    dists numalist = fillFromMatrix (scan numalist).dist_dict dmx
      ((totalN numalist : Int) - 1) := by
  unfold dists
  rw [scan_lnig numalist h, hdm, if_neg (by simp)]
  show fillFromMatrix (scan numalist).dist_dict dmx (((scan numalist).n : Int) - 1) = _
  rfl

/-- `scan` leaves `dm = none` when no group carries a `dist-all` key. -/
theorem scan_dm_none (numalist : List TSpec) (h : ∀ g ∈ numalist, g.distAll = none) :
    (scan numalist).dm = none := by
  unfold scan
  apply foldl_inv_mem (P := fun st : ScanState => st.dm = none)
  · rfl
  · intro st g hg hst
    show (scanGroup st g).dm = none
    unfold scanGroup
    simp only [h g hg]
    rw [(addGroupNodes_fields g st).2.2.2.1]
    exact hst

/-- Totality of `dists`: on success every ordered pair of resolved node ids
has a value. -/
theorem dists_total (numalist : List TSpec) (M : DD) (h : dists numalist = .ok M)
    (s d : Nat) (hs : s < totalN numalist) (hd : d < totalN numalist) :
    (ddLookup M s d).isSome = true := by
  have hne : numalist ≠ [] := by
    rintro rfl
    rw [dists_nil] at h; exact absurd h (by simp)
  · cases hdm : (scan numalist).dm with
    | none =>
      rw [dists_eq_fill numalist hne hdm] at h
      injection h with h
      subst h
      have hinv := fillFold_inv (scan numalist).nnd (scan numalist).npd
        (scan numalist).dsd (scan numalist).dsp (scan numalist).dop
        (allPairs (totalN numalist)) [] (scan numalist).dist_dict
        ⟨by simp, by simp, fun i => Or.inl (scan_dist_dict_empty numalist i i),
          fun a b _ _ => Or.inl (by
            rw [scan_dist_dict_empty numalist a b, scan_dist_dict_empty numalist b a])⟩
      rw [List.nil_append] at hinv
      exact hinv.1 (s, d) (mem_allPairs hs hd)
    | some dmx =>
      rw [dists_eq_matrix numalist hne hdm] at h
      unfold fillFromMatrix at h
      by_cases hlen : (dmx.length : Int) ≠ (totalN numalist : Int) - 1 + 1
      · rw [if_pos hlen] at h
        exact absurd h (by simp)
      · rw [if_neg hlen] at h
        push_neg at hlen
        obtain ⟨hlens, hchar⟩ := fillRowsAux_ok_char _ dmx 0 _ M h
        rw [hchar s d]
        have hsrow : s < dmx.length := by omega
        rw [if_pos ⟨Nat.zero_le _, by omega, by omega⟩]
        rw [Nat.sub_zero, List.getElem?_eq_getElem hsrow]
        have hrlen := hlens dmx[s] (List.getElem_mem hsrow)
        have hdr : d < dmx[s].length := by omega
        simp [List.getElem?_eq_getElem hdr]

/-- On success, cells outside the resolved node-id range are undefined. -/
theorem dists_outside (numalist : List TSpec) (M : DD) (h : dists numalist = .ok M)
    (s d : Nat) (hout : totalN numalist ≤ s ∨ totalN numalist ≤ d) :
    ddLookup M s d = none := by
  have hne : numalist ≠ [] := by
    rintro rfl
    rw [dists_nil] at h; exact absurd h (by simp)
  cases hdm : (scan numalist).dm with
  | none =>
    rw [dists_eq_fill numalist hne hdm] at h
    injection h with h
    subst h
    unfold fillPairs
    have key : ∀ (L : List (Nat × Nat)) (dd : DD),
        (∀ p ∈ L, p.1 < totalN numalist ∧ p.2 < totalN numalist) →
        (∀ x y, (totalN numalist ≤ x ∨ totalN numalist ≤ y) → ddLookup dd x y = none) →
        (∀ x y, (totalN numalist ≤ x ∨ totalN numalist ≤ y) →
          ddLookup (L.foldl (fillStep (scan numalist).nnd (scan numalist).npd
            (scan numalist).dsd (scan numalist).dsp (scan numalist).dop) dd) x y = none) := by
      intro L
      induction L with
      | nil => intro dd _ hdd; exact hdd
      | cons q rest ih =>
        intro dd hL hdd
        rw [List.foldl_cons]
        apply ih
        · intro p hp; exact hL p (List.mem_cons_of_mem q hp)
        · obtain ⟨hq1, hq2⟩ := hL q (List.mem_cons_self q rest)
          intro x y hxy
          unfold fillStep
          have hbound : ∀ (a b : Nat) (v : Int), a < totalN numalist → b < totalN numalist →
              ddLookup (ddSet dd a b v) x y = none := by
            intro a b v ha hb
            rw [ddLookup_ddSet_of_ne]
            · exact hdd x y hxy
            · rintro ⟨rfl, rfl⟩
              omega
          split
          · exact hbound q.1 q.2 _ hq1 hq2
          · split
            · rename_i v _
              rw [ddLookup_ddSet_of_ne, ddLookup_ddSet_of_ne]
              · exact hdd x y hxy
              · rintro ⟨rfl, rfl⟩; omega
              · rintro ⟨rfl, rfl⟩; omega
            · split
              · exact hdd x y hxy
              · exact hbound q.1 q.2 _ hq1 hq2
    apply key (allPairs (totalN numalist)) (scan numalist).dist_dict
    · intro p hp; exact allPairs_bounds hp
    · intro x y _; exact scan_dist_dict_empty numalist x y
    · exact hout
  | some dmx =>
    rw [dists_eq_matrix numalist hne hdm] at h
    unfold fillFromMatrix at h
    by_cases hlen : (dmx.length : Int) ≠ (totalN numalist : Int) - 1 + 1
    · rw [if_pos hlen] at h
      exact absurd h (by simp)
    · rw [if_neg hlen] at h
      push_neg at hlen
      obtain ⟨hlens, hchar⟩ := fillRowsAux_ok_char _ dmx 0 _ M h
      rw [hchar s d]
      rw [if_neg]
      · exact scan_dist_dict_empty numalist s d
      · rintro ⟨_, hlt, hdlt⟩
        rcases hout with hout | hout
        · omega
        · omega

/-- When no `dist-all` key is present, diagonal cells resolve to 10. -/
theorem dists_diag (numalist : List TSpec) (M : DD) (h : dists numalist = .ok M)
    (hnd : ∀ g ∈ numalist, g.distAll = none)
    (i : Nat) (hi : i < totalN numalist) : ddLookup M i i = some 10 := by
  have hne : numalist ≠ [] := by
    rintro rfl
    rw [dists_nil] at h; exact absurd h (by simp)
  have hdm := scan_dm_none numalist hnd
  have htot := dists_total numalist M h i i hi hi
  rw [dists_eq_fill numalist hne hdm] at h
  injection h with h
  subst h
  have hinv := fillFold_inv (scan numalist).nnd (scan numalist).npd
    (scan numalist).dsd (scan numalist).dsp (scan numalist).dop
    (allPairs (totalN numalist)) [] (scan numalist).dist_dict
    ⟨by simp, by simp, fun j => Or.inl (scan_dist_dict_empty numalist j j),
      fun a b _ _ => Or.inl (by
        rw [scan_dist_dict_empty numalist a b, scan_dist_dict_empty numalist b a])⟩
  rw [List.nil_append] at hinv
  have hinv2 : cellsInv (scan numalist).nnd
      (fillPairs (scan numalist) (totalN numalist)) (allPairs (totalN numalist)) := hinv
  rcases hinv2.2.2.1 i with hni | h10
  · rw [hni] at htot; simp at htot
  · exact h10

/-- Symmetry for pairs covered by a `node-dist` override (no `dist-all`). -/
theorem dists_sym (numalist : List TSpec) (M : DD) (h : dists numalist = .ok M)
    (hnd : ∀ g ∈ numalist, g.distAll = none) (a b : Nat) (hab : a ≠ b)
    (ha : a < totalN numalist) (hb : b < totalN numalist)
    (hcov : (nndLookup (scan numalist).nnd a (b : Int)).isSome = true ∨
      (nndLookup (scan numalist).nnd b (a : Int)).isSome = true) :
    ddLookup M a b = ddLookup M b a := by
  have hne : numalist ≠ [] := by
    rintro rfl
    rw [dists_nil] at h; exact absurd h (by simp)
  have hdm := scan_dm_none numalist hnd
  rw [dists_eq_fill numalist hne hdm] at h
  injection h with h
  subst h
  have hinv := fillFold_inv (scan numalist).nnd (scan numalist).npd
    (scan numalist).dsd (scan numalist).dsp (scan numalist).dop
    (allPairs (totalN numalist)) [] (scan numalist).dist_dict
    ⟨by simp, by simp, fun j => Or.inl (scan_dist_dict_empty numalist j j),
      fun x y _ _ => Or.inl (by
        rw [scan_dist_dict_empty numalist x y, scan_dist_dict_empty numalist y x])⟩
  rw [List.nil_append] at hinv
  rcases hinv.2.2.2 a b hab hcov with h1 | ⟨h2m, _⟩ | ⟨h3m, _⟩
  · exact h1
  · exact absurd (mem_allPairs ha hb) h2m
  · exact absurd (mem_allPairs hb ha) h3m

/-! ### Ignoring out-of-range node-dist destinations -/

theorem odLookup_pyDictOf_filter (k : Int) :
    ∀ (nd : List (Int × Int)) (acc1 acc2 : List (Int × Int)),
    (∀ d : Int, d ≠ k → odLookup acc1 d = odLookup acc2 d) →
    ∀ d : Int, d ≠ k →
      odLookup (nd.foldl (fun acc p => odInsert acc p.1 p.2) acc1) d =
      odLookup ((nd.filter fun p => decide (p.1 ≠ k)).foldl
        (fun acc p => odInsert acc p.1 p.2) acc2) d := by
  intro nd
  induction nd with
  | nil => intro acc1 acc2 hrel d hd; exact hrel d hd
  | cons q rest ih =>
    intro acc1 acc2 hrel d hd
    by_cases hq : q.1 = k
    · rw [List.filter_cons_of_neg (by simp [hq])]
      rw [List.foldl_cons]
      apply ih
      · intro d' hd'
        rw [odLookup_odInsert_ne _ _ _ _ (by rw [hq]; exact fun hc => hd' hc.symm)]
        exact hrel d' hd'
      · exact hd
    · rw [List.filter_cons_of_pos (by simp [hq])]
      rw [List.foldl_cons, List.foldl_cons]
      apply ih
      · intro d' hd'
        rw [odLookup_odInsert, odLookup_odInsert]
        split
        · rfl
        · exact hrel d' hd'
      · exact hd

theorem ScanRel.refl (k : Int) (st : ScanState) : ScanRel k st st :=
  ⟨rfl, rfl, rfl, rfl, rfl, rfl, rfl, rfl, rfl, fun _ _ _ => rfl⟩

theorem addGroupNodes_rel (k : Int) (g : TSpec) (st1 st2 : ScanState)
    (h : ScanRel k st1 st2) : ScanRel k (addGroupNodes g st1) (addGroupNodes g st2) := by
  unfold addGroupNodes
  apply foldl_rel (R := ScanRel k) _ _ _ _ h
  intro a1 a2 _ ha
  have hbump : ScanRel k (if g.nodes > 0 then { a1 with lastsocket := a1.lastsocket + 1 } else a1)
      (if g.nodes > 0 then { a2 with lastsocket := a2.lastsocket + 1 } else a2) := by
    split
    · exact ⟨ha.1, by rw [ha.2.1], ha.2.2.1, ha.2.2.2.1, ha.2.2.2.2.1, ha.2.2.2.2.2.1,
        ha.2.2.2.2.2.2.1, ha.2.2.2.2.2.2.2.1, ha.2.2.2.2.2.2.2.2.1, ha.2.2.2.2.2.2.2.2.2⟩
    · exact ha
  apply foldl_rel (R := ScanRel k) _ _ _ _ hbump
  intro b1 b2 die hb
  apply foldl_rel (R := ScanRel k) _ _ _ _ hb
  intro c1 c2 _ hc
  obtain ⟨f1, f2, f3, f4, f5, f6, f7, f8, f9, f10⟩ := hc
  exact ⟨by simp [nodeStep, f1], by simp [nodeStep, f2], by simp [nodeStep, f3, f1],
    by simp [nodeStep, f4, f1, f2], by simp [nodeStep, f5], by simp [nodeStep, f6],
    by simp [nodeStep, f7], by simp [nodeStep, f8], by simp [nodeStep, f9],
    by simpa [nodeStep] using f10⟩

theorem nnd_insert_rel (k : Int) (nnd1 nnd2 : List (Nat × List (Int × Int)))
    (hrel : ∀ (s : Nat) (d : Int), d ≠ k → nndLookup nnd1 s d = nndLookup nnd2 s d)
    (key : Nat) (row1 row2 : List (Int × Int))
    (hrow : ∀ d : Int, d ≠ k → odLookup row1 d = odLookup row2 d) :
    ∀ (s : Nat) (d : Int), d ≠ k →
      nndLookup (odInsert nnd1 key row1) s d = nndLookup (odInsert nnd2 key row2) s d := by
  intro s d hd
  unfold nndLookup
  rw [odLookup_odInsert, odLookup_odInsert]
  by_cases hk : key = s
  · rw [if_pos hk, if_pos hk]
    exact hrow d hd
  · rw [if_neg hk, if_neg hk]
    exact hrel s d hd

theorem scanGroup_dsdVal (st : ScanState) (g : TSpec) :
    (scanGroup st g).dsd = g.distSameDie.getD (addGroupNodes g st).dsd := rfl

theorem scanGroup_dspVal (st : ScanState) (g : TSpec) :
    (scanGroup st g).dsp = g.distSamePackage.getD (addGroupNodes g st).dsp := rfl

theorem scanGroup_dopVal (st : ScanState) (g : TSpec) :
    (scanGroup st g).dop = (addGroupNodes g st).dop := rfl

theorem scanGroup_dmVal (st : ScanState) (g : TSpec) :
    (scanGroup st g).dm = (match g.distAll with
      | some m => some m
      | none => (addGroupNodes g st).dm) := rfl

theorem scanGroup_nndVal (st : ScanState) (g : TSpec) :
    (scanGroup st g).nnd = (match g.nodeDist with
      | some nd => (List.range ((addGroupNodes g st).n - st.n)).foldl
          (fun acc i => odInsert acc (st.n + i) (pyDictOf nd)) (addGroupNodes g st).nnd
      | none => (addGroupNodes g st).nnd) := rfl

theorem scanGroup_rel (k : Int) (g : TSpec) (st1 st2 : ScanState)
    (h : ScanRel k st1 st2) : ScanRel k (scanGroup st1 g) (scanGroup st2 g) := by
  have hag := addGroupNodes_rel k g st1 st2 h
  obtain ⟨e1, e2, e3, e4, e5, e6, e7, e8, e9, e10⟩ := hag
  refine ⟨?_, ?_, ?_, ?_, ?_, ?_, ?_, ?_, ?_, ?_⟩
  · rw [scanGroup_nVal, scanGroup_nVal, e1]
  · rw [show (scanGroup st1 g).lastsocket = (addGroupNodes g st1).lastsocket from rfl,
      show (scanGroup st2 g).lastsocket = (addGroupNodes g st2).lastsocket from rfl, e2]
  · rw [scanGroup_ddVal, scanGroup_ddVal, e3]
  · rw [scanGroup_npdVal, scanGroup_npdVal, e4]
  · rw [scanGroup_dsdVal, scanGroup_dsdVal, e5]
  · rw [scanGroup_dspVal, scanGroup_dspVal, e6]
  · rw [scanGroup_dopVal, scanGroup_dopVal, e7]
  · rw [scanGroup_dmVal, scanGroup_dmVal, e8]
  · rw [scanGroup_lnigVal, scanGroup_lnigVal, e1]
  · rw [scanGroup_nndVal, scanGroup_nndVal]
    cases g.nodeDist with
    | none => exact e10
    | some nd =>
      rw [h.1, e1]
      apply foldl_rel2
        (R := fun a b => ∀ (s : Nat) (d : Int), d ≠ k → nndLookup a s d = nndLookup b s d)
      · exact e10
      · intro a1 a2 i _ hrel
        exact nnd_insert_rel k a1 a2 hrel _ _ _ (fun _ _ => rfl)

theorem scanGroup_rel_filter (k : Int) (g : TSpec) (nd : List (Int × Int))
    (hg : g.nodeDist = some nd) (st : ScanState) :
    ScanRel k (scanGroup st g)
      (scanGroup st { g with nodeDist := some (nd.filter fun p => decide (p.1 ≠ k)) }) := by
  refine ⟨rfl, rfl, rfl, rfl, rfl, rfl, rfl, rfl, rfl, ?_⟩
  rw [scanGroup_nndVal, scanGroup_nndVal, hg]
  show ∀ (s : Nat) (d : Int), d ≠ k →
    nndLookup ((List.range ((addGroupNodes g st).n - st.n)).foldl
      (fun acc i => odInsert acc (st.n + i) (pyDictOf nd)) (addGroupNodes g st).nnd) s d =
    nndLookup ((List.range ((addGroupNodes g st).n - st.n)).foldl
      (fun acc i => odInsert acc (st.n + i)
        (pyDictOf (nd.filter fun p => decide (p.1 ≠ k)))) (addGroupNodes g st).nnd) s d
  apply foldl_rel2
    (R := fun a b => ∀ (s : Nat) (d : Int), d ≠ k → nndLookup a s d = nndLookup b s d)
  · intro _ _ _; rfl
  · intro a1 a2 i _ hrel
    apply nnd_insert_rel k a1 a2 hrel
    intro d hd
    exact odLookup_pyDictOf_filter k nd [] [] (fun _ _ => rfl) d hd

theorem scan_rel_filter (k : Int) (pre post : List TSpec) (g : TSpec)
    (nd : List (Int × Int)) (hg : g.nodeDist = some nd) :
    ScanRel k (scan (pre ++ g :: post))
      (scan (pre ++ { g with nodeDist := some (nd.filter fun p => decide (p.1 ≠ k)) } :: post)) := by
  unfold scan
  rw [List.foldl_append, List.foldl_append, List.foldl_cons, List.foldl_cons]
  apply foldl_rel (R := ScanRel k)
  · exact scanGroup_rel_filter k g nd hg _
  · intro a1 a2 b ha
    exact scanGroup_rel k b a1 a2 ha

theorem fillPairs_rel (k : Int) (st1 st2 : ScanState) (h : ScanRel k st1 st2)
    (n : Nat) (hk : ∀ d : Nat, d < n → (d : Int) ≠ k) :
    fillPairs st1 n = fillPairs st2 n := by
  obtain ⟨e1, e2, e3, e4, e5, e6, e7, e8, e9, e10⟩ := h
  unfold fillPairs
  rw [e3, e5, e6, e7]
  have key : ∀ (L : List (Nat × Nat)) (dd : DD), (∀ p ∈ L, p.2 < n) →
      L.foldl (fillStep st1.nnd st1.npd st2.dsd st2.dsp st2.dop) dd =
      L.foldl (fillStep st2.nnd st2.npd st2.dsd st2.dsp st2.dop) dd := by
    intro L
    induction L with
    | nil => intro dd _; rfl
    | cons q rest ih =>
      intro dd hL
      rw [List.foldl_cons, List.foldl_cons]
      have hstep : fillStep st1.nnd st1.npd st2.dsd st2.dsp st2.dop dd q =
          fillStep st2.nnd st2.npd st2.dsd st2.dsp st2.dop dd q := by
        unfold fillStep
        rw [e10 q.1 (q.2 : Int) (hk q.2 (hL q (List.mem_cons_self q rest))), e4]
      rw [hstep]
      exact ih _ (fun p hp => hL p (List.mem_cons_of_mem q hp))
  apply key
  intro p hp
  exact (allPairs_bounds hp).2

/-- Removing a `node-dist` entry whose destination id is outside the range of
resolved node ids does not change the result of `dists`. -/
theorem dists_filter_out_of_range (k : Int) (pre post : List TSpec) (g : TSpec)
    (nd : List (Int × Int)) (hg : g.nodeDist = some nd)
    (hk : k < 0 ∨ (totalN (pre ++ g :: post) : Int) ≤ k) :
    dists (pre ++ g :: post) =
    dists (pre ++ { g with nodeDist := some (nd.filter fun p => decide (p.1 ≠ k)) } :: post) := by
  set g2 : TSpec := { g with nodeDist := some (nd.filter fun p => decide (p.1 ≠ k)) }
    with hg2
  have hrel := scan_rel_filter k pre post g nd hg
  rw [← hg2] at hrel
  obtain ⟨e1, e2, e3, e4, e5, e6, e7, e8, e9, e10⟩ := hrel
  have hne : pre ++ g :: post ≠ [] := by simp
  have hne2 : pre ++ g2 :: post ≠ [] := by simp
  unfold dists
  rw [e9, e8, e3]
  by_cases hcond : (scan (pre ++ g2 :: post)).lnig < 0
  · rw [if_pos hcond, if_pos hcond]
  · rw [if_neg hcond, if_neg hcond]
    cases hdm : (scan (pre ++ g2 :: post)).dm with
    | some dmx => rfl
    | none =>
      show Except.ok (fillPairs (scan (pre ++ g :: post))
          (((scan (pre ++ g2 :: post)).lnig - 1) + 1).toNat)
        = Except.ok (fillPairs (scan (pre ++ g2 :: post))
          (((scan (pre ++ g2 :: post)).lnig - 1) + 1).toNat)
      congr 1
      have hC : (((scan (pre ++ g2 :: post)).lnig - 1) + 1).toNat
          = totalN (pre ++ g :: post) := by
        rw [scan_lnig _ hne2]
        unfold totalN
        rw [e1]
        omega
      apply fillPairs_rel k _ _ ⟨e1, e2, e3, e4, e5, e6, e7, e8, e9, e10⟩
      intro d hd
      rw [hC] at hd
      intro hc
      rcases hk with hk | hk <;> omega

theorem qInv_init : qInv {} :=
  ⟨rfl, ⟨by decide, by decide⟩, ⟨by decide, by decide⟩,
    ⟨by decide, by decide⟩, ⟨by decide, by decide⟩⟩

theorem gform_of_siadd_isOk (v : String) (h : (siadd v "0G").isOk = true) :
    gform v := by
  unfold siadd at h
  by_cases hg : (lastCharIsG v && lastCharIsG "0G") = true
  · rw [if_pos hg] at h
    simp only [Bool.and_eq_true] at hg
    refine ⟨hg.1, ?_⟩
    cases hx : pyIntOfString? (dropLastStr v) with
    | none =>
      rw [hx] at h
      simp [Except.isOk, Except.toBool] at h
    | some a => rfl
  · rw [if_neg hg] at h
    simp [Except.isOk, Except.toBool] at h

theorem qMemStep_ok_builtin (memsize : String) (st : QState) (cur : List String)
    (hms : gform memsize) (hst : qInv st) :
    ∃ p : QState × List String, qMemStep memsize "" st cur = .ok p ∧ qInv p.1 := by
  obtain ⟨tm, htm, htmg⟩ := siadd_ok st.totalmem memsize hst.2.1 hms
  have hred : qMemStep memsize "" st cur = (siadd st.totalmem memsize >>= fun tm =>
    pure ({ st with lastmem := st.lastmem + 1, totalmem := tm, objectparams := st.objectparams ++ ["-object memory-backend-ram,size=" ++ memsize ++ ",id=membuiltin_" ++ toString (st.lastmem + 1) ++ "_node_" ++ toString st.lastnode] }, cur ++ ["-numa node,nodeid=" ++ toString st.lastnode ++ ",memdev=membuiltin_" ++ toString (st.lastmem + 1) ++ "_node_" ++ toString st.lastnode])) := rfl
  rw [hred, htm, exc_bind_ok]
  exact ⟨_, rfl, hst.1, htmg, hst.2.2.1, hst.2.2.2.1, hst.2.2.2.2⟩

theorem qMemStep_ok_plugged (memsize : String) (st : QState) (cur : List String)
    (hms : gform memsize) (hst : qInv st) :
    ∃ p : QState × List String, qMemStep memsize "plugged" st cur = .ok p ∧ qInv p.1 := by
  obtain ⟨pm, hpm, hpmg⟩ := siadd_ok st.pluggedmem memsize hst.2.2.2.1 hms
  obtain ⟨tm, htm, htmg⟩ := siadd_ok st.totalmem memsize hst.2.1 hms
  have hred : qMemStep memsize "plugged" st cur = (siadd st.pluggedmem memsize >>= fun pm =>
    siadd st.totalmem memsize >>= fun tm =>
    pure ({ st with lastmem := st.lastmem + 1, totalmem := tm, pluggedmem := pm, memslots := st.memslots + 1, objectparams := st.objectparams ++ ["-object memory-backend-ram,size=" ++ memsize ++ ",id=memdimm_" ++ toString (st.lastmem + 1) ++ "_node_" ++ toString st.lastnode], deviceparams := st.deviceparams ++ ["-device pc-dimm,node=" ++ toString st.lastnode ++ ",id=dimm" ++ toString (st.lastmem + 1) ++ ",memdev=memdimm_" ++ toString (st.lastmem + 1) ++ "_node_" ++ toString st.lastnode] }, cur ++ ["-numa node,nodeid=" ++ toString st.lastnode])) := rfl
  rw [hred, hpm, exc_bind_ok, htm, exc_bind_ok]
  exact ⟨_, rfl, hst.1, htmg, hst.2.2.1, hpmg, hst.2.2.2.2⟩

theorem qMemStep_ok_unplugged (memsize : String) (st : QState) (cur : List String)
    (hms : gform memsize) (hst : qInv st) :
    ∃ p : QState × List String, qMemStep memsize "unplugged" st cur = .ok p ∧ qInv p.1 := by
  obtain ⟨um, hum, humg⟩ := siadd_ok st.unpluggedmem memsize hst.2.2.2.2 hms
  obtain ⟨tm, htm, htmg⟩ := siadd_ok st.totalmem memsize hst.2.1 hms
  have hred : qMemStep memsize "unplugged" st cur = (siadd st.unpluggedmem memsize >>= fun um =>
    siadd st.totalmem memsize >>= fun tm =>
    pure ({ st with lastmem := st.lastmem + 1, totalmem := tm, unpluggedmem := um, memslots := st.memslots + 1, objectparams := st.objectparams ++ ["-object memory-backend-ram,size=" ++ memsize ++ ",id=memdimm_" ++ toString (st.lastmem + 1) ++ "_node_" ++ toString st.lastnode] }, cur ++ ["-numa node,nodeid=" ++ toString st.lastnode])) := rfl
  rw [hred, hum, exc_bind_ok, htm, exc_bind_ok]
  exact ⟨_, rfl, hst.1, htmg, hst.2.2.1, hst.2.2.2.1, humg⟩

theorem qNvmemStep_ok_builtin (nvmemsize : String) (st : QState) (cur : List String)
    (hms : gform nvmemsize) (hst : qInv st) :
    ∃ p : QState × List String, qNvmemStep nvmemsize "" st cur = .ok p ∧ qInv p.1 := by
  obtain ⟨tnv, htnv, htnvg⟩ := siadd_ok st.totalnvmem nvmemsize hst.2.2.1 hms
  have hred : qNvmemStep nvmemsize "" st cur = (siadd st.totalnvmem nvmemsize >>= fun tnv =>
    pure ({ st with lastnvmem := st.lastnvmem + 1, lastmem := st.lastmem + 1, machineparam := (if st.lastnvmem + 1 == 0 then st.machineparam ++ ",nvdimm=on" else st.machineparam), totalnvmem := tnv, objectparams := st.objectparams ++ ["-object memory-backend-ram,size=" ++ nvmemsize ++ ",id=memnvbuiltin_" ++ toString (st.lastmem + 1) ++ "_node_" ++ toString st.lastnode] }, cur ++ ["-numa node,nodeid=" ++ toString st.lastnode ++ ",memdev=memnvbuiltin_" ++ toString (st.lastmem + 1) ++ "_node_" ++ toString st.lastnode])) := rfl
  rw [hred, htnv, exc_bind_ok]
  exact ⟨_, rfl, hst.1, hst.2.1, htnvg, hst.2.2.2.1, hst.2.2.2.2⟩

theorem qNvmemStep_ok_plugged (nvmemsize : String) (st : QState) (cur : List String)
    (hms : gform nvmemsize) (hst : qInv st) :
    ∃ p : QState × List String, qNvmemStep nvmemsize "plugged" st cur = .ok p ∧ qInv p.1 := by
  obtain ⟨pm, hpm, hpmg⟩ := siadd_ok st.pluggedmem nvmemsize hst.2.2.2.1 hms
  obtain ⟨tnv, htnv, htnvg⟩ := siadd_ok st.totalnvmem nvmemsize hst.2.2.1 hms
  have hred : qNvmemStep nvmemsize "plugged" st cur = (siadd st.pluggedmem nvmemsize >>= fun pm =>
    siadd st.totalnvmem nvmemsize >>= fun tnv =>
    pure ({ st with lastnvmem := st.lastnvmem + 1, lastmem := st.lastmem + 1, machineparam := (if st.lastnvmem + 1 == 0 then st.machineparam ++ ",nvdimm=on" else st.machineparam), totalnvmem := tnv, pluggedmem := pm, memslots := st.memslots + 1, objectparams := st.objectparams ++ ["-object memory-backend-ram,size=" ++ nvmemsize ++ ",id=memnvdimm_" ++ toString (st.lastmem + 1) ++ "_node_" ++ toString st.lastnode], deviceparams := st.deviceparams ++ ["-device nvdimm,node=" ++ toString st.lastnode ++ ",id=nvdimm" ++ toString (st.lastmem + 1) ++ ",memdev=memnvdimm_" ++ toString (st.lastmem + 1) ++ "_node_" ++ toString st.lastnode] }, cur ++ ["-numa node,nodeid=" ++ toString st.lastnode])) := rfl
  rw [hred, hpm, exc_bind_ok, htnv, exc_bind_ok]
  exact ⟨_, rfl, hst.1, hst.2.1, htnvg, hpmg, hst.2.2.2.2⟩

theorem qNvmemStep_ok_unplugged (nvmemsize : String) (st : QState) (cur : List String)
    (hms : gform nvmemsize) (hst : qInv st) :
    ∃ p : QState × List String, qNvmemStep nvmemsize "unplugged" st cur = .ok p ∧ qInv p.1 := by
  obtain ⟨um, hum, humg⟩ := siadd_ok st.unpluggedmem nvmemsize hst.2.2.2.2 hms
  obtain ⟨tnv, htnv, htnvg⟩ := siadd_ok st.totalnvmem nvmemsize hst.2.2.1 hms
  have hred : qNvmemStep nvmemsize "unplugged" st cur = (siadd st.unpluggedmem nvmemsize >>= fun um =>
    siadd st.totalnvmem nvmemsize >>= fun tnv =>
    pure ({ st with lastnvmem := st.lastnvmem + 1, lastmem := st.lastmem + 1, machineparam := (if st.lastnvmem + 1 == 0 then st.machineparam ++ ",nvdimm=on" else st.machineparam), totalnvmem := tnv, unpluggedmem := um, memslots := st.memslots + 1, objectparams := st.objectparams ++ ["-object memory-backend-ram,size=" ++ nvmemsize ++ ",id=memnvdimm_" ++ toString (st.lastmem + 1) ++ "_node_" ++ toString st.lastnode] }, cur ++ ["-numa node,nodeid=" ++ toString st.lastnode])) := rfl
  rw [hred, hum, exc_bind_ok, htnv, exc_bind_ok]
  exact ⟨_, rfl, hst.1, hst.2.1, htnvg, hst.2.2.2.1, humg⟩

theorem qMemStep_ok (memsize memdimm : String) (st : QState) (cur : List String)
    (hd : dimmOk memdimm) (hms : gform memsize) (hst : qInv st) :
    ∃ p : QState × List String, qMemStep memsize memdimm st cur = .ok p ∧ qInv p.1 := by
  rcases hd with h | h | h <;> subst h
  · exact qMemStep_ok_builtin memsize st cur hms hst
  · exact qMemStep_ok_plugged memsize st cur hms hst
  · exact qMemStep_ok_unplugged memsize st cur hms hst

theorem qNvmemStep_ok (nvmemsize memdimm : String) (st : QState) (cur : List String)
    (hd : dimmOk memdimm) (hms : gform nvmemsize) (hst : qInv st) :
    ∃ p : QState × List String, qNvmemStep nvmemsize memdimm st cur = .ok p ∧ qInv p.1 := by
  rcases hd with h | h | h <;> subst h
  · exact qNvmemStep_ok_builtin nvmemsize st cur hms hst
  · exact qNvmemStep_ok_plugged nvmemsize st cur hms hst
  · exact qNvmemStep_ok_unplugged nvmemsize st cur hms hst

theorem qNodeStep_ok (cpucount : Int) (memcount nvmemcount : Nat)
    (memsize nvmemsize memdimm : String) (st : QState)
    (hcpu : cpucount ≤ 0) (hd : dimmOk memdimm)
    (hmem : memcount = 0 ∨ gform memsize) (hnv : nvmemcount = 0 ∨ gform nvmemsize)
    (hst : qInv st) :
    ∃ st', qNodeStep cpucount memcount nvmemcount memsize nvmemsize memdimm st = .ok st' ∧
      qInv st' := by
  have hst1 : qInv { st with lastnode := st.lastnode + 1 } :=
    ⟨hst.1, hst.2.1, hst.2.2.1, hst.2.2.2.1, hst.2.2.2.2⟩
  obtain ⟨p1, hp1, hip1⟩ := foldlM_exc_inv (P := fun p : QState × List String => qInv p.1)
    (fun (p : QState × List String) _ => qMemStep memsize memdimm p.1 p.2)
    (List.range memcount) ({ st with lastnode := st.lastnode + 1 }, []) hst1
    (fun p b hb hP => by
      rcases hmem with h0 | hg
      · rw [h0] at hb; simp at hb
      · exact qMemStep_ok memsize memdimm p.1 p.2 hd hg hP)
  obtain ⟨p2, hp2, hip2⟩ := foldlM_exc_inv (P := fun p : QState × List String => qInv p.1)
    (fun (p : QState × List String) _ => qNvmemStep nvmemsize memdimm p.1 p.2)
    (List.range nvmemcount) p1 hip1
    (fun p b hb hP => by
      rcases hnv with h0 | hg
      · rw [h0] at hb; simp at hb
      · exact qNvmemStep_ok nvmemsize memdimm p.1 p.2 hd hg hP)
  refine ⟨{ p2.1 with numaparams := p2.1.numaparams ++ p2.2 }, ?_,
    hip2.1, hip2.2.1, hip2.2.2.1, hip2.2.2.2.1, hip2.2.2.2.2⟩
  simp only [qNodeStep, hp1, exc_bind_ok, hp2, if_neg (not_lt.mpr hcpu)]
  rfl

theorem qTripleFold_ok (packages dies nodecount : Nat) (cpucount : Int)
    (memcount nvmemcount : Nat) (memsize nvmemsize memdimm : String) (st : QState)
    (hcpu : cpucount ≤ 0) (hd : dimmOk memdimm)
    (hmem : memcount = 0 ∨ gform memsize) (hnv : nvmemcount = 0 ∨ gform nvmemsize)
    (hst : qInv st) :
    ∃ st', (List.range packages).foldlM (fun (st : QState) _ => do
      let st := if nodecount > 0 && cpucount > 0
        then { st with lastsocket := st.lastsocket + 1 } else st
      (List.range dies).foldlM (fun (st : QState) _ => do
        let st := if nodecount > 0 && cpucount > 0
          then { st with lastdie := st.lastdie + 1 } else st
        (List.range nodecount).foldlM
          (fun st _ => qNodeStep cpucount memcount nvmemcount memsize nvmemsize memdimm st)
          st) st) st = .ok st' ∧ qInv st' := by
  apply foldlM_exc_inv (P := qInv) _ _ _ hst
  intro a _ _ hPa
  have ha1 : qInv (if nodecount > 0 && cpucount > 0
      then { a with lastsocket := a.lastsocket + 1 } else a) := by
    split
    · exact ⟨hPa.1, hPa.2.1, hPa.2.2.1, hPa.2.2.2.1, hPa.2.2.2.2⟩
    · exact hPa
  obtain ⟨m, hm, him⟩ := foldlM_exc_inv (P := qInv)
    (fun (st : QState) _ => do
      let st := if nodecount > 0 && cpucount > 0
        then { st with lastdie := st.lastdie + 1 } else st
      (List.range nodecount).foldlM
        (fun st _ => qNodeStep cpucount memcount nvmemcount memsize nvmemsize memdimm st)
        st) (List.range dies)
    (if nodecount > 0 && cpucount > 0 then { a with lastsocket := a.lastsocket + 1 } else a)
    ha1
    (fun b _ _ hPb => by
      have hb1 : qInv (if nodecount > 0 && cpucount > 0
          then { b with lastdie := b.lastdie + 1 } else b) := by
        split
        · exact ⟨hPb.1, hPb.2.1, hPb.2.2.1, hPb.2.2.2.1, hPb.2.2.2.2⟩
        · exact hPb
      obtain ⟨w, hw, hiw⟩ := foldlM_exc_inv (P := qInv)
        (fun st _ => qNodeStep cpucount memcount nvmemcount memsize nvmemsize memdimm st)
        (List.range nodecount)
        (if nodecount > 0 && cpucount > 0 then { b with lastdie := b.lastdie + 1 } else b)
        hb1
        (fun c _ _ hPc =>
          qNodeStep_ok cpucount memcount nvmemcount memsize nvmemsize memdimm c
            hcpu hd hmem hnv hPc)
      exact ⟨w, hw, hiw⟩)
  exact ⟨m, hm, him⟩

theorem qGroupStep_ok (st : QState) (gi : Nat) (spec : TSpec)
    (hval : validateSpec spec = true) (hcores : spec.cores = 0)
    (hdimm : dimmOk (spec.dimm.getD "")) (hst : qInv st) :
    ∃ st', qGroupStep st gi spec = .ok st' ∧ qInv st' := by
  have hvals := hval
  unfold validateSpec at hvals
  simp only [Bool.and_eq_true] at hvals
  have hmem : ((if spec.mem.getD "0" ≠ "0" then (1 : Nat) else 0) = 0) ∨
      gform (spec.mem.getD "0") := by
    cases hm : spec.mem with
    | none => left; rfl
    | some v =>
      rw [hm] at hvals
      have hv : (v == "0" || (siadd v "0G").isOk) = true := hvals.1.1.1.1.1.1.1
      simp only [Bool.or_eq_true] at hv
      rcases hv with h0 | hok
      · have hveq : v = "0" := eq_of_beq h0
        exact Or.inl (by rw [if_neg (fun hc => hc hveq)])
      · exact Or.inr (gform_of_siadd_isOk v hok)
  have hnvm : ((if spec.nvmem.getD "0" ≠ "0" then (1 : Nat) else 0) = 0) ∨
      gform (spec.nvmem.getD "0") := by
    cases hm : spec.nvmem with
    | none => left; rfl
    | some v =>
      rw [hm] at hvals
      have hv : (v == "0" || (siadd v "0G").isOk) = true := hvals.1.1.1.1.1.1.2
      simp only [Bool.or_eq_true] at hv
      rcases hv with h0 | hok
      · have hveq : v = "0" := eq_of_beq h0
        exact Or.inl (by rw [if_neg (fun hc => hc hveq)])
      · exact Or.inr (gform_of_siadd_isOk v hok)
  have hst1 : qInv { st with groupnodes := odInsert st.groupnodes gi (NumaJson.intRange (st.lastnode + 1) (st.lastnode + 1 + spec.nodes)) } :=
    ⟨hst.1, hst.2.1, hst.2.2.1, hst.2.2.2.1, hst.2.2.2.2⟩
  obtain ⟨st2, hfold, hinv⟩ := qTripleFold_ok spec.packages spec.dies spec.nodes
    ((0 : Int) * (QState.threadcount { st with groupnodes := odInsert st.groupnodes gi (NumaJson.intRange (st.lastnode + 1) (st.lastnode + 1 + spec.nodes)) }))
    (if spec.mem.getD "0" ≠ "0" then 1 else 0)
    (if spec.nvmem.getD "0" ≠ "0" then 1 else 0)
    (spec.mem.getD "0") (spec.nvmem.getD "0") (spec.dimm.getD "")
    { st with groupnodes := odInsert st.groupnodes gi (NumaJson.intRange (st.lastnode + 1) (st.lastnode + 1 + spec.nodes)) }
    (le_of_eq (zero_mul _)) hdimm hmem hnvm hst1
  refine ⟨st2, ?_, hinv⟩
  unfold qGroupStep
  rw [hcores]
  exact hfold

theorem qemuopts_fold_ok (numalist : List TSpec) (hval : validate numalist = true)
    (hcores : ∀ g ∈ numalist, g.cores = 0)
    (hdimm : ∀ g ∈ numalist, dimmOk (g.dimm.getD "")) :
    ∃ st, numalist.enum.foldlM (fun (st : QState) p => qGroupStep st p.1 p.2) {} = .ok st ∧
      qInv st := by
  apply foldlM_exc_inv (P := qInv) _ _ _ qInv_init
  intro a p hp hPa
  have hmem : p.2 ∈ numalist := snd_mem_enum numalist p hp
  exact qGroupStep_ok a p.1 p.2 (List.all_eq_true.mp hval p.2 hmem)
    (hcores p.2 hmem) (hdimm p.2 hmem) hPa

/-- When validation passes, every group has zero cores, every dimm value is
one the memory loops accept, and distance resolution succeeds, `qemuopts`
raises exactly the no-CPU error and emits nothing. -/
theorem qemuopts_no_cpus (numalist : List TSpec)
    (hval : validate numalist = true)
    (hcores : ∀ g ∈ numalist, g.cores = 0)
    (hdimm : ∀ g ∈ numalist, dimmOk (g.dimm.getD ""))
    (hdists : ∃ M, dists numalist = .ok M) :
    qemuopts numalist =
      .error "no CPUs found, make sure at least one NUMA node has \"cores\" > 0" := by
  obtain ⟨st0, hfold, hinv⟩ := qemuopts_fold_ok numalist hval hcores hdimm
  obtain ⟨M, hM⟩ := hdists
  simp only [qemuopts, hval, reduceIte, hfold, exc_bind_ok, hM, hinv.1]
  rfl

end Topo2Q

namespace TopoPy

open PyDict PyStr

theorem classify_skip (st : TLines) (line : String)
    (h1 : parseCpuLine line = none) (h2 : parseMemLine line = none)
    (h3 : parseDistLine line = none) :
    classifyLine st line = .ok st := by
  unfold classifyLine
  rw [h1, h2, h3]

theorem foldlM_skip (line : String) (hline : ∀ st, classifyLine st line = .ok st) :
    ∀ (pre : List String) (st : TLines) (post : List String),
      (pre ++ line :: post).foldlM classifyLine st = (pre ++ post).foldlM classifyLine st := by
  intro pre
  induction pre with
  | nil =>
    intro st post
    show (line :: post).foldlM classifyLine st = post.foldlM classifyLine st
    rw [List.foldlM_cons, hline st, FoldUtil.exc_bind_ok]
  | cons x xs ih =>
    intro st post
    show (x :: (xs ++ line :: post)).foldlM classifyLine st =
      (x :: (xs ++ post)).foldlM classifyLine st
    rw [List.foldlM_cons, List.foldlM_cons]
    exact congrArg (fun g => classifyLine st x >>= g) (funext fun s => ih s post)

end TopoPy

namespace Claims

open Topo2Q TopoPy

/-- C6 (counterexample): not every dump yields a result.  A dump with no
parseable CPU line (empty, or a single unmatched line) raises the `max()`
ValueError; and dumps whose lines all match known shapes still raise: an
IndexError when a distance line's node index is beyond the parsed memory
lines, an IndexError from `dists[1]` when a node with no placed branch has
the one-entry distance vector `(10)`, and a SyntaxError from `eval("0x")`
when a CPU line's thread-siblings group is only commas. -/
theorem C6_counterexample :
    dump_to_topology [] true = .error "max() arg is an empty sequence" ∧
    dump_to_topology ["hello"] true = .error "max() arg is an empty sequence" ∧
    dump_to_topology ["cpu p:0 d:0 n:0 c:0 t:1 cpu:0", "dist n:0 d:10"] true =
      .error "list index out of range" ∧
    dump_to_topology ["cpu p:0 d:0 n:0 c:0 t:1 cpu:0", "mem n:0 s:1024", "mem n:1 s:1024", "dist n:1 d:10"] true =
      .error "list index out of range" ∧
    dump_to_topology ["cpu p:0 d:0 n:0 c:0 t:, cpu:0"] true =
      .error "unexpected EOF while parsing" :=
  ⟨rfl, rfl, rfl, rfl, rfl⟩

/-- C6 (amended): an individual line that matches none of the three known
shapes is skipped: removing it from any position of the dump never changes
the result of `dump_to_topology`.  (Absence of parseable CPU lines or
inconsistencies between matched lines can still raise.) -/
theorem C6_amended (pre : List String) (line : String) (post : List String) (sm : Bool)
    (h1 : parseCpuLine line = none) (h2 : parseMemLine line = none)
    (h3 : parseDistLine line = none) :
    dump_to_topology (pre ++ line :: post) sm = dump_to_topology (pre ++ post) sm := by
  unfold dump_to_topology
  rw [foldlM_skip line (fun st => classify_skip st line h1 h2 h3) pre {} post]

/-- Witness for C6 (amended): dropping an unmatched line between a CPU line
and a mem line changes nothing. -/
theorem C6_witness :
    dump_to_topology ["cpu p:0 d:0 n:0 c:0 t:1 cpu:0", "hello world", "mem n:0 s:1024"] true =
      dump_to_topology ["cpu p:0 d:0 n:0 c:0 t:1 cpu:0", "mem n:0 s:1024"] true :=
  C6_amended ["cpu p:0 d:0 n:0 c:0 t:1 cpu:0"] "hello world" ["mem n:0 s:1024"] true rfl rfl rfl

/-- C9 (counterexample): in `c9dump`, node 2 satisfies every grafting
condition of the claim with `m = 0` (self distance 10, node 0 strictly
nearest at distance 8 and placed), yet the code creates a synthetic orphan
branch because `dists[0] == 10` tests the minimum of the distance vector
(8 here), not the self distance. -/
theorem C9_counterexample :
    (dump_to_topology c9dump true).map (fun T => decide (specGraftCond [8, 30, 10] 2 0 T.node_branch)) = .ok true ∧
    (dump_to_topology c9dump true).map (fun T => odLookup T.mem_branch 2) =
      .ok (some ["packagex", "mem", "node2", "mem", "node2", "1G"]) ∧
    (dump_to_topology c9dump true).map (fun T => odLookup T.node_branch 0) =
      .ok (some ["package0", "die0", "node0"]) ∧
    ["packagex", "mem", "node2", "mem", "node2", "1G"].take 3 ≠ ["package0", "die0", "node0"] :=
  ⟨by rfl, by rfl, by rfl, by decide⟩

/-- C9 (amended): the memory-placement step for a distance line `(node,
distvec)` whose memory size is available and whose sorted distance vector
has at least two entries: with a branch already placed for `node` the leaf
attaches there; otherwise it is grafted under the branch of
`distvec.index(second-smallest)` exactly when the smallest distance is 10,
the second-smallest is strictly below the third-smallest (or there are
fewer than three entries), and that index is already placed; in every other
case a synthetic orphan branch is created. -/
theorem C9_amended (mn : Nat) (mems : List (Nat × PyFloat)) (acc : TreeSt)
    (node : Nat) (distvec : List Int) (p : Nat × PyFloat)
    (hm : mems.get? node = some p) :
    (∀ nb, odLookup acc.node_branch node = some nb →
      memStep mn mems acc (node, distvec) = .ok (attachResult acc node nb mn p.2)) ∧
    (∀ d0 d1 rest mb, isortBy intLt distvec = d0 :: d1 :: rest →
      d0 = 10 → (rest = [] ∨ d1 < rest.getD 0 0) →
      odLookup acc.node_branch node = none →
      odLookup acc.node_branch (distvec.indexOf d1) = some mb →
      memStep mn mems acc (node, distvec) = .ok (graftResult acc node mb mn p.2)) ∧
    (∀ d0 d1 rest, isortBy intLt distvec = d0 :: d1 :: rest →
      odLookup acc.node_branch node = none →
      ¬ (d0 = 10 ∧ (rest = [] ∨ d1 < rest.getD 0 0) ∧
          (odLookup acc.node_branch (distvec.indexOf d1)).isSome = true) →
      memStep mn mems acc (node, distvec) = .ok (orphanResult acc node mn p.2)) := by
  refine ⟨?_, ?_, ?_⟩
  · intro nb hnb
    simp only [memStep, hm, FoldUtil.exc_bind_ok, hnb]
    rfl
  · intro d0 d1 rest mb hds h10 h2 hnone hmb
    have hc : d0 = 10 ∧ ((d0 :: d1 :: rest).length < 3 ∨
        (d0 :: d1 :: rest).getD 1 0 < (d0 :: d1 :: rest).getD 2 0) := by
      refine ⟨h10, ?_⟩
      rcases h2 with hr | hlt
      · left; subst hr; simp
      · right; exact hlt
    simp only [memStep, hm, FoldUtil.exc_bind_ok, hnone, hds, List.get?, if_pos hc, hmb]
    rfl
  · intro d0 d1 rest hds hnone hneg
    by_cases hA : d0 = 10 ∧ (rest = [] ∨ d1 < rest.getD 0 0)
    · have hc : d0 = 10 ∧ ((d0 :: d1 :: rest).length < 3 ∨
          (d0 :: d1 :: rest).getD 1 0 < (d0 :: d1 :: rest).getD 2 0) := by
        refine ⟨hA.1, ?_⟩
        rcases hA.2 with hr | hlt
        · left; subst hr; simp
        · right; exact hlt
      cases hlk : odLookup acc.node_branch (distvec.indexOf d1) with
      | some mb => exact absurd ⟨hA.1, hA.2, by rw [hlk]; rfl⟩ hneg
      | none =>
        simp only [memStep, hm, FoldUtil.exc_bind_ok, hnone, hds, List.get?, if_pos hc, hlk]
        rfl
    · have hc : ¬ (d0 = 10 ∧ ((d0 :: d1 :: rest).length < 3 ∨
          (d0 :: d1 :: rest).getD 1 0 < (d0 :: d1 :: rest).getD 2 0)) := by
        intro h
        refine hA ⟨h.1, ?_⟩
        rcases h.2 with hlen | hlt
        · left
          have : rest.length = 0 := by simpa using Nat.lt_of_succ_lt_succ (Nat.lt_of_succ_lt_succ hlen)
          exact List.length_eq_zero.mp this
        · right; exact hlt
      simp only [memStep, hm, FoldUtil.exc_bind_ok, hnone, hds, List.get?, if_neg hc]
      rfl

/-- Witness for C9 (amended): node 1, memory-only, distance vector (20, 10):
smallest 10, second-smallest 20 first occurs at index 0, node 0 placed, so
the leaf is grafted under node 0's branch. -/
theorem C9_witness :
    memStep 1 [(0, (⟨1024, 1⟩ : PyFloat)), (1, (⟨2048, 1⟩ : PyFloat))] ({ node_branch := [(0, ["package0", "die0", "node0"])] } : TreeSt) (1, [20, 10]) =
      .ok (graftResult { node_branch := [(0, ["package0", "die0", "node0"])] } 1 ["package0", "die0", "node0"] 1 ⟨2048, 1⟩) :=
  (C9_amended 1 [(0, (⟨1024, 1⟩ : PyFloat)), (1, (⟨2048, 1⟩ : PyFloat))] { node_branch := [(0, ["package0", "die0", "node0"])] } 1 [20, 10] (1, ⟨2048, 1⟩) rfl).2.1
    10 20 [] ["package0", "die0", "node0"] rfl rfl (Or.inl rfl) rfl rfl

/-- C1 (counterexample): a group list that passes `validate` and carries a
`dist-all` override resolves with the override's diagonal copied verbatim:
the self-distance is 42, not 10, so the claim "matrix[i][i] == 10 for every i
(including when a full dist-all matrix override is supplied)" is false. -/
theorem C1_counterexample :
    validate [({ distAll := some [[42]] } : TSpec)] = true ∧
    dists [({ distAll := some [[42]] } : TSpec)] = .ok [(0, [(0, 42)])] ∧
    ddLookup [(0, [(0, 42)])] 0 0 = some 42 ∧ some (42 : Int) ≠ some (10 : Int) := by
  refine ⟨by decide, by rfl, by decide, by decide⟩

/-- C1 (amended): whenever `dists` succeeds, every ordered pair of resolved
node ids is assigned exactly one value (the result is a total function on
node-id pairs), and when no group supplies a `dist-all` override the
self-distance `matrix[i][i]` is 10 for every node id `i`; with a `dist-all`
override the diagonal is copied from the override. -/
theorem C1_amended (numalist : List TSpec) (M : DD) (h : dists numalist = .ok M) :
    (∀ s d, s < totalN numalist → d < totalN numalist → (ddLookup M s d).isSome = true) ∧
    ((∀ g ∈ numalist, g.distAll = none) →
      ∀ i, i < totalN numalist → ddLookup M i i = some 10) :=
  ⟨fun s d hs hd => dists_total numalist M h s d hs hd,
   fun hnd i hi => dists_diag numalist M h hnd i hi⟩

/-- Witness for C1 (amended) at the concrete spec `[{nodes: 2}]`. -/
theorem C1_amended_witness :
    (ddLookup [(0, [(0, 10), (1, 11)]), (1, [(0, 11), (1, 10)])] 0 1).isSome = true ∧
    ddLookup [(0, [(0, 10), (1, 11)]), (1, [(0, 11), (1, 10)])] 0 0 = some 10 := by
  have happ := C1_amended [({ nodes := 2 } : TSpec)]
    [(0, [(0, 10), (1, 11)]), (1, [(0, 11), (1, 10)])] (by rfl)
  exact ⟨happ.1 0 1 (by decide) (by decide), happ.2 (by decide) 0 (by decide)⟩

/-- C2: the compactor/expander round trip fails.  On
`[\x7b"nodes": 2, "node-dist": \x7b"1": 55\x7d\x7d]` the expander resolves the
0↔1 distance to 55; the compactor rewrites that spec to
`[\x7b"nodes": 2, "dist": 55\x7d]`; but re-expanding yields 11 for the 0↔1
distance, because `dists` assigns `numaspec["dist"]` to a local variable it
never reads (the topology default `dist-same-die = 11` wins), so
`DistanceExpander(DistanceCompactor(DistanceExpander(spec)))` differs from
`DistanceExpander(spec)`. -/
theorem C2_round_trip_fails :
    dists [({ nodes := 2, nodeDist := some [(1, 55)] } : TSpec)] =
      .ok [(0, [(0, 10), (1, 55)]), (1, [(0, 55), (1, 10)])] ∧
    NumactlH.add_dists_to_numalist [({ nodes := 2, nodeDist := some [(1, 55)] } : TSpec)]
      [(0, [(0, 10), (1, 55)]), (1, [(0, 55), (1, 10)])] =
      .ok [({ nodes := 2, dist := some 55 } : TSpec)] ∧
    dists [({ nodes := 2, dist := some 55 } : TSpec)] =
      .ok [(0, [(0, 10), (1, 11)]), (1, [(0, 11), (1, 10)])] ∧
    ddLookup [(0, [(0, 10), (1, 55)]), (1, [(0, 55), (1, 10)])] 0 1 ≠
      ddLookup [(0, [(0, 10), (1, 11)]), (1, [(0, 11), (1, 10)])] 0 1 :=
  ⟨by rfl, by rfl, by rfl, by decide⟩

/-- C8 (counterexample): the empty group list passes `validate` and has no
group with a positive core count, yet `qemuopts` raises "no NUMA nodes
found" (the `dists` error comes first), a message that does not contain
"no CPUs found"; so the claimed error is not raised for every validated
no-core list. -/
theorem C8_counterexample :
    validate ([] : List TSpec) = true ∧
    (∀ g ∈ ([] : List TSpec), g.cores = 0) ∧
    qemuopts ([] : List TSpec) = .error "no NUMA nodes found" ∧
    strContains "no NUMA nodes found" "no CPUs found" = false :=
  ⟨rfl, fun g hg => absurd hg (List.not_mem_nil g), by rfl, by decide⟩

/-- C8 (amended): if the group list passes `validate`, no group declares a
positive core count, every dimm value is one the memory loops accept, and
distance resolution succeeds, then `qemuopts` raises exactly the no-CPU
validation error and emits no output at all. -/
theorem C8_amended (numalist : List TSpec)
    (hval : validate numalist = true)
    (hcores : ∀ g ∈ numalist, g.cores = 0)
    (hdimm : ∀ g ∈ numalist, dimmOk (g.dimm.getD ""))
    (hdists : ∃ M, dists numalist = .ok M) :
    qemuopts numalist =
      .error "no CPUs found, make sure at least one NUMA node has \"cores\" > 0" :=
  qemuopts_no_cpus numalist hval hcores hdimm hdists

/-- Witness for C8 (amended) at the concrete spec `[{mem: "1G"}]`. -/
theorem C8_witness :
    qemuopts [({ mem := some "1G" } : TSpec)] =
      .error "no CPUs found, make sure at least one NUMA node has \"cores\" > 0" :=
  C8_amended [({ mem := some "1G" } : TSpec)] (by rfl) (by decide)
    (by intro g hg; rw [List.mem_singleton] at hg; subst hg; exact Or.inl rfl)
    ⟨[(0, [(0, 10)])], by rfl⟩

/-- C5: without a `dist-all` override, any pair of distinct resolved nodes
covered by a symmetric `node-dist` override ends up with symmetric distances
(`matrix[a][b] == matrix[b][a]`), and the override never touches a slot
resolved by the higher-precedence self-distance rule: the diagonal stays 10. -/
theorem C5_node_dist_symmetric (numalist : List TSpec) (M : DD) (a b : Nat)
    (h : dists numalist = .ok M)
    (hnd : ∀ g ∈ numalist, g.distAll = none)
    (hab : a ≠ b) (ha : a < totalN numalist) (hb : b < totalN numalist)
    (hcov : (nndLookup (scan numalist).nnd a (b : Int)).isSome = true ∨
      (nndLookup (scan numalist).nnd b (a : Int)).isSome = true) :
    ddLookup M a b = ddLookup M b a ∧ ddLookup M a a = some 10 :=
  ⟨dists_sym numalist M h hnd a b hab ha hb hcov,
   dists_diag numalist M h hnd a ha⟩

/-- Witness for C5 at `[{nodes: 2, node-dist: {1: 55}}]`, pair (0, 1). -/
theorem C5_witness :
    ddLookup [(0, [(0, 10), (1, 55)]), (1, [(0, 55), (1, 10)])] 0 1 =
      ddLookup [(0, [(0, 10), (1, 55)]), (1, [(0, 55), (1, 10)])] 1 0 ∧
    ddLookup [(0, [(0, 10), (1, 55)]), (1, [(0, 55), (1, 10)])] 0 0 = some 10 :=
  C5_node_dist_symmetric [({ nodes := 2, nodeDist := some [(1, 55)] } : TSpec)]
    [(0, [(0, 10), (1, 55)]), (1, [(0, 55), (1, 10)])] 0 1
    (by rfl) (by decide) (by decide) (by decide) (by decide) (Or.inl (by decide))

/-- C7 (code evaluated at the failing input): a two-node spec with a
three-row `dist-all` override fails, but the message reports "1 expected"
(the source interpolates `lastnode`, an off-by-one) although two rows were
expected. -/
theorem C7_dim_mismatch_message :
    dists [({ nodes := 2, distAll := some [[10, 21], [21, 10], [10, 10]] } : TSpec)]
      = .error "wrong dimensions in dist-all 3 rows seen, 1 expected" := by rfl

/-- C10: in distance resolution without a `dist-all` override, removing a
`node-dist` entry whose destination id is negative or beyond the last
resolved node id leaves the resolved matrix unchanged (and no error is
raised: both sides are the same `Except` value). -/
theorem C10_out_of_range_node_dist_ignored (k : Int) (pre post : List TSpec)
    (g : TSpec) (nd : List (Int × Int)) (hg : g.nodeDist = some nd)
    (_hnodistall : ∀ g' ∈ pre ++ g :: post, g'.distAll = none)
    (hk : k < 0 ∨ (totalN (pre ++ g :: post) : Int) ≤ k) :
    dists (pre ++ g :: post) =
      dists (pre ++ { g with nodeDist := some (nd.filter fun p => decide (p.1 ≠ k)) } :: post) :=
  dists_filter_out_of_range k pre post g nd hg hk

/-- C3 (code evaluated at the failing input): with two groups both declaring
a scalar `dist` default (30 and 40), the emitted directive list contains the
ordered pair (0,1) four times — twice with each group's default — because the
final phase records nothing in `found_dests` and never stops at the first
default.  The code's own comment says "use the first found default distance";
the claim says the first-declared default is applied exactly once per pair. -/
theorem C3_default_dist_duplicated :
    (NumaJson.qemuoptsParts [{ nodes := 1, dist := some 30 },
        { nodes := 1, dist := some 40 }]).map (fun p => p.numaparams)
      = .ok ["-numa dist,src=0,dst=1,val=30", "-numa dist,src=1,dst=0,val=30",
             "-numa dist,src=1,dst=0,val=30", "-numa dist,src=0,dst=1,val=30",
             "-numa dist,src=0,dst=1,val=40", "-numa dist,src=1,dst=0,val=40",
             "-numa dist,src=1,dst=0,val=40", "-numa dist,src=0,dst=1,val=40"] := by rfl

/-- C4 (counterexample): on the documented example group list the emitter
succeeds, but the total RAM is "6G" (2×2G + 2×1G), not the claimed "5G"; the
distance directive list is empty, not a non-empty list covering all 20
ordered off-diagonal pairs; and nothing in the rendered string encodes
sockets. -/
theorem C4_counterexample :
    (NumaJson.qemuoptsParts [{ cpu := 2, mem := some "2G", nodes := 2 },
        { cpu := 1, mem := some "1G", nodes := 2 },
        { nvmem := some "8G" }]).map
      (fun p => (p.totalmem, p.numaparams.filter NumaJson.isDistParam)) = .ok ("6G", []) ∧
    ("6G" : String) ≠ "5G" ∧
    (NumaJson.qemuopts [{ cpu := 2, mem := some "2G", nodes := 2 },
        { cpu := 1, mem := some "1G", nodes := 2 },
        { nvmem := some "8G" }]).toOption.map (fun s => strContains s "sockets")
      = some false := by
  refine ⟨by rfl, by decide, by rfl⟩

/-- C4 (amended): on the example group list the emitter succeeds and encodes
exactly 5 NUMA nodes, 6 logical CPUs (`-smp 6`, no socket encoding exists in
this emitter), total memory "6G" plus nvmem "8G" (`-m 14G`), and an empty
distance directive list (the input carries no distance keys). -/
theorem C4_amended :
    (NumaJson.qemuoptsParts [{ cpu := 2, mem := some "2G", nodes := 2 },
        { cpu := 1, mem := some "1G", nodes := 2 },
        { nvmem := some "8G" }]).map
      (fun p => ((p.numaparams.filter NumaJson.isNumaNodeParam).length, p.lastnode + 1,
        p.cpuparam, p.memparam, p.totalmem, p.totalnvmem,
        p.numaparams.filter NumaJson.isDistParam))
      = .ok (5, 5, "-smp 6", "-m 14G", "6G", "8G", []) := by rfl

/-- Witness for C10: dropping the out-of-range entry `7: 99` from a two-node
spec leaves `dists` unchanged. -/
theorem C10_witness :
    dists [({ nodes := 2, nodeDist := some [(1, 55), (7, 99)] } : TSpec)] =
    dists [({ nodes := 2, nodeDist := some [(1, 55)] } : TSpec)] := by
  have happ := C10_out_of_range_node_dist_ignored 7 [] []
    ({ nodes := 2, nodeDist := some [(1, 55), (7, 99)] } : TSpec)
    [(1, 55), (7, 99)] (by rfl) (by decide) (by decide)
  simpa using happ

end Claims

